import Mathlib

set_option maxRecDepth 100000

/-!
Verification of the vserver control-plane core (apps/control-plane/src/index.ts)
against its natural-language specification.

The TypeScript source is shallowly embedded: every pure function of the
control plane is translated into an executable Lean definition operating on
`String`/`List Char`/`Int`/`Rat`, and platform primitives (JSON.parse /
JSON.stringify, Number(), Date parsing, crypto.createHmac) are modelled by
explicit Lean implementations of their documented semantics on the fragment
the control plane exercises.  Stateful request handlers are modelled as pure
functions of an explicit configuration/environment value.
-/

namespace VServer

/-! ## Character-level utilities modelling JavaScript string primitives -/

/-- Model of JavaScript `String.prototype.trim` on the character list:
drop whitespace from both ends (the control plane only ever meets ASCII
whitespace, which `Char.isWhitespace` covers). -/
def jsTrimChars (cs : List Char) : List Char :=
  (cs.dropWhile Char.isWhitespace).rdropWhile Char.isWhitespace

/-- `String.prototype.trim` at the `String` level. -/
def jsTrim (s : String) : String :=
  String.mk (jsTrimChars s.data)

/-- Characters matched by the regex class `[a-z0-9]` used by
`normalizeProject`'s replacement step. -/
def isSlugChar (c : Char) : Bool :=
  (97 ≤ c.toNat && c.toNat ≤ 122) || (48 ≤ c.toNat && c.toNat ≤ 57)

/-- Model of the global regex replace `.replace(/[^a-z0-9]+/g, "-")`:
every maximal run of non-`[a-z0-9]` characters becomes a single `'-'`.
The boolean flag records whether we are currently inside such a run. -/
def collapseRun : List Char → Bool → List Char
  | [], _ => []
  | c :: rest, inRun =>
    if isSlugChar c then c :: collapseRun rest false
    else if inRun then collapseRun rest true
    else '-' :: collapseRun rest true

/-- Model of `.replace(/^-+|-+$/g, "")`: strip leading and trailing `'-'`. -/
def stripDashes (cs : List Char) : List Char :=
  (cs.dropWhile (· = '-')).rdropWhile (· = '-')

/-- Embedding of `normalizeProject` (index.ts:275-281), the spec's
`normalizeSlug`: trim, lowercase, collapse non-`[a-z0-9]` runs to `'-'`,
strip leading/trailing `'-'`. -/
def normalizeProject (input : String) : String :=
  String.mk (stripDashes (collapseRun ((jsTrimChars input.data).map Char.toLower) false))

/-- "No two adjacent dashes" as a chain predicate on the character list. -/
def noDoubleDash (l : List Char) : Prop :=
  List.Chain' (fun a b => ¬(a = '-' ∧ b = '-')) l

/-! ## Shell quoting (index.ts:1210-1212) and the auto-deploy script builder -/

/-- Character-level model of the global regex replace in `shellQuote`:
every single quote becomes the five-character sequence quote,
double-quote, quote, double-quote, quote. -/
def shellEscapeChars : List Char → List Char
  | [] => []
  | c :: rest =>
    if c = '\'' then '\'' :: '"' :: '\'' :: '"' :: '\'' :: shellEscapeChars rest
    else c :: shellEscapeChars rest

/-- Embedding of `shellQuote` (index.ts:1210-1212): wrap in single quotes,
escaping embedded single quotes. -/
def shellQuote (input : String) : String :=
  String.mk ('\'' :: (shellEscapeChars input.data ++ ['\'']))

/-- Parsing mode of the POSIX shell word evaluator: outside quotes, inside
single quotes, inside double quotes. -/
inductive QMode
  | norm
  | single
  | double

/-- A sound restriction of POSIX shell word parsing (token recognition +
quote removal) sufficient for the words `shellQuote` produces: outside
quotes only quote openers are in the modelled fragment (any other unquoted
character would involve word splitting, globbing or expansion and is
rejected); single quotes protect everything until the closing quote;
double quotes protect everything except the shell-active characters
`$` (code 36), backquote (code 96) and backslash (code 92), which are
rejected as outside the fragment.  `some cs` means the input is one
complete word whose quote removal yields exactly `cs`. -/
def evalShellWord : QMode → List Char → Option (List Char)
  | .norm, [] => some []
  | .single, [] => none
  | .double, [] => none
  | .norm, c :: rest =>
    if c = '\'' then evalShellWord .single rest
    else if c = '"' then evalShellWord .double rest
    else none
  | .single, c :: rest =>
    if c = '\'' then evalShellWord .norm rest
    else (evalShellWord .single rest).map (c :: ·)
  | .double, c :: rest =>
    if c = '"' then evalShellWord .norm rest
    else if c.toNat = 36 ∨ c.toNat = 96 ∨ c.toNat = 92 then none
    else (evalShellWord .double rest).map (c :: ·)

/-- Embedding of the `AutoDeployProjectConfig` record (index.ts:170-181). -/
structure AutoDeployProjectConfig where
  projectName : String
  projectSlug : String
  repository : String
  repositoryCanonical : String
  branch : String
  repoPath : String
  deployCommand : String
  environment : String
  remoteHost : Option String
  domains : List String
deriving Repr, DecidableEq

/-- Embedding of `buildAutoDeployScript` (index.ts:591-609). -/
def buildAutoDeployScript (project : AutoDeployProjectConfig) (branch : String) : String :=
  let escapedRepoPath := shellQuote project.repoPath
  let escapedBranch := shellQuote branch
  let escapedOriginRef := shellQuote ("origin/" ++ branch)
  let escapedDeployCommand := shellQuote project.deployCommand
  String.intercalate "\n" [
    "set -euo pipefail",
    "cd " ++ escapedRepoPath,
    "git fetch origin " ++ escapedBranch,
    "git checkout " ++ escapedBranch ++ " || git checkout -b " ++ escapedBranch
      ++ " " ++ escapedOriginRef,
    "git reset --hard " ++ escapedOriginRef,
    "if [[ -x ./deploy-with-track.sh ]]; then",
    "  ./deploy-with-track.sh bash -lc " ++ escapedDeployCommand,
    "else",
    "  bash -lc " ++ escapedDeployCommand,
    "fi"]

/-! ## JavaScript Number() model and toSafeLimit (index.ts:391-397) -/

/-- Value of a run of decimal digit characters. -/
def digitsToNat (ds : List Char) : Nat :=
  ds.foldl (fun acc c => acc * 10 + (c.toNat - 48)) 0

/-- Exponent part of an ECMAScript decimal literal (`e`/`E`, optional sign,
one or more digits); `some 0` when absent, `none` when malformed. -/
def parseExpPart : List Char → Option Int
  | [] => some 0
  | c :: rest =>
    if c = 'e' ∨ c = 'E' then
      match rest with
      | '+' :: ds =>
        if ds ≠ [] ∧ ds.all Char.isDigit then some (digitsToNat ds) else none
      | '-' :: ds =>
        if ds ≠ [] ∧ ds.all Char.isDigit then some (-(digitsToNat ds : Int)) else none
      | ds =>
        if ds ≠ [] ∧ ds.all Char.isDigit then some (digitsToNat ds) else none
    else none

/-- Exact value of a finite decimal numeric literal, represented as
`m * 10^e` (kept unnormalised so every operation is plain `Nat`/`Int`
arithmetic that the kernel evaluates). -/
structure DecNum where
  m : Int
  e : Int
deriving Repr, DecidableEq

/-- Unsigned ECMAScript decimal literal (`DecimalDigits . DecimalDigits?
ExponentPart?` and friends), as an exact `m * 10^e` value. -/
def parseUnsignedDec (cs : List Char) : Option DecNum :=
  let ip := cs.takeWhile Char.isDigit
  let r1 := cs.dropWhile Char.isDigit
  match r1 with
  | '.' :: r2 =>
    let fp := r2.takeWhile Char.isDigit
    let r3 := r2.dropWhile Char.isDigit
    if ip = [] ∧ fp = [] then none
    else (parseExpPart r3).map fun e =>
      ⟨(digitsToNat (ip ++ fp) : Int), e - (fp.length : Int)⟩
  | _ =>
    if ip = [] then none
    else (parseExpPart r1).map fun e => ⟨(digitsToNat ip : Int), e⟩

/-- `2^1024`, the smallest magnitude at which a double overflows to
Infinity, as an explicit numeral (the exact double rounding boundary just
below `2^1024` is not modelled; nothing proved here depends on it). -/
def doubleOverflowBound : Nat := 179769313486231590772930519078902473361797697894230657273430081157732675805500963132708477322407536021120113879871393357658789768814416622492847430639474124377767893424865485276302219601246094119453082952085005768838150682342462881473913110540827237163350510684586298239947245938479716304835356329624224137216

/-- Whether `m * 10^e` has magnitude at least `2^1024`. -/
def DecNum.overflows (v : DecNum) : Bool :=
  if 0 ≤ v.e then doubleOverflowBound ≤ v.m.natAbs * 10 ^ v.e.toNat
  else doubleOverflowBound * 10 ^ (-v.e).toNat ≤ v.m.natAbs

/-- Unsigned numeric literal: `Infinity` is recognised but non-finite, and
so is any decimal literal that overflows the double range. -/
def parseUnsignedNum (cs : List Char) : Option DecNum :=
  if cs = "Infinity".data then none
  else match parseUnsignedDec cs with
    | none => none
    | some v => if v.overflows then none else some v

/-- Model of ECMAScript `Number(s)` for a string `s`, composed with the
`Number.isFinite` test: `none` means NaN or ±Infinity, `some v` the exact
finite value.  Restricted to the decimal fragment of `StrNumericLiteral`
(hex/octal/binary literals are not modelled). -/
def jsNumberOfString (s : String) : Option DecNum :=
  let t := jsTrimChars s.data
  if t = [] then some ⟨0, 0⟩
  else match t with
    | '+' :: rest => parseUnsignedNum rest
    | '-' :: rest => (parseUnsignedNum rest).map fun v => ⟨-v.m, v.e⟩
    | _ => parseUnsignedNum t

/-- `Number(x)` for the `string | undefined` inputs the handlers pass
(`Number(undefined)` is NaN), composed with `Number.isFinite`. -/
def jsToFiniteNumber : Option String → Option DecNum
  | none => none
  | some s => jsNumberOfString s

/-- `Math.trunc` of `m * 10^e`: round toward zero (`Int.tdiv` is
truncating division). -/
def jsTrunc (v : DecNum) : Int :=
  if 0 ≤ v.e then v.m * ((10 ^ v.e.toNat : Nat) : Int)
  else v.m.tdiv ((10 ^ (-v.e).toNat : Nat) : Int)

/-- Embedding of `toSafeLimit` (index.ts:391-397): a non-finite parse
returns the fallback unmodified; a finite parse is truncated and clamped
into `[1, 100]`. -/
def toSafeLimit (rawLimit : Option String) (fallback : Int) : Int :=
  match jsToFiniteNumber rawLimit with
  | none => fallback
  | some v => min (max (jsTrunc v) 1) 100

/-- The limit the `/v1/logs` handler applies (index.ts:1452):
`toSafeLimit(query.limit, 120)`. -/
def logsSafeLimit (rawLimit : Option String) : Int :=
  toSafeLimit rawLimit 120

/-- The limit the `/v1/deployments` handler applies (index.ts:1591):
`toSafeLimit(query.limit, 20)`. -/
def deploymentsSafeLimit (rawLimit : Option String) : Int :=
  toSafeLimit rawLimit 20

/-! ## JSON values (model of JavaScript `JSON.parse`/`JSON.stringify`)

The three types are mutually inductive (rather than nested through `List`)
so that every function on them is plain structural recursion, which the
kernel evaluates.  Object fields keep source order and may contain
duplicates; property lookup takes the last occurrence, as JavaScript
property assignment does. -/

mutual

inductive Json where
  | null
  | bool (b : Bool)
  | num (n : Int)
  | str (s : String)
  | arr (elems : JsonList)
  | obj (fields : JsonFields)

inductive JsonList where
  | nil
  | cons (hd : Json) (tl : JsonList)

inductive JsonFields where
  | nil
  | cons (key : String) (val : Json) (tl : JsonFields)

end

/-- Property lookup: the value of the last occurrence of `key`, as in a
JavaScript object built by `JSON.parse`. -/
def JsonFields.get? : JsonFields → String → Option Json
  | .nil, _ => none
  | .cons k v tl, key =>
    match JsonFields.get? tl key with
    | some r => some r
    | none => if k = key then some v else none

/-- Lowercase hexadecimal digit. -/
def hexDigitChar (n : Nat) : Char :=
  if n < 10 then Char.ofNat (48 + n) else Char.ofNat (87 + n)

/-- JSON escape of one character, as `JSON.stringify` emits it. -/
def escapeJsonChar (c : Char) : List Char :=
  if c = '"' then ['\\', '"']
  else if c = '\\' then ['\\', '\\']
  else if c.toNat = 8 then ['\\', 'b']
  else if c.toNat = 9 then ['\\', 't']
  else if c.toNat = 10 then ['\\', 'n']
  else if c.toNat = 12 then ['\\', 'f']
  else if c.toNat = 13 then ['\\', 'r']
  else if c.toNat < 32 then
    ['\\', 'u', '0', '0', hexDigitChar (c.toNat / 16), hexDigitChar (c.toNat % 16)]
  else [c]

/-- A JSON string literal with quotes and escapes. -/
def quoteJsonChars (cs : List Char) : List Char :=
  '"' :: (cs.flatMap escapeJsonChar ++ ['"'])

mutual

/-- Model of `JSON.stringify` (no indentation): this is what
`verifyGitHubSignature` feeds to the HMAC. -/
def jsonStringify : Json → String
  | .null => "null"
  | .bool true => "true"
  | .bool false => "false"
  | .num n => toString n
  | .str s => String.mk (quoteJsonChars s.data)
  | .arr es => "[" ++ stringifyElems es ++ "]"
  | .obj fs => "\x7b" ++ stringifyFields fs ++ "\x7d"

def stringifyElems : JsonList → String
  | .nil => ""
  | .cons v .nil => jsonStringify v
  | .cons v tl => jsonStringify v ++ "," ++ stringifyElems tl

def stringifyFields : JsonFields → String
  | .nil => ""
  | .cons k v .nil => String.mk (quoteJsonChars k.data) ++ ":" ++ jsonStringify v
  | .cons k v tl =>
    String.mk (quoteJsonChars k.data) ++ ":" ++ jsonStringify v ++ ","
      ++ stringifyFields tl

end

/-- JSON whitespace (space, tab, line feed, carriage return). -/
def jsonWs (c : Char) : Bool :=
  c.toNat = 32 || c.toNat = 9 || c.toNat = 10 || c.toNat = 13

/-- Hexadecimal digit (either case). -/
def isHexCharCI (c : Char) : Bool :=
  (48 ≤ c.toNat && c.toNat ≤ 57) || (97 ≤ c.toNat && c.toNat ≤ 102)
    || (65 ≤ c.toNat && c.toNat ≤ 70)

/-- Value of a hexadecimal digit (either case). -/
def hexVal (c : Char) : Nat :=
  if c.toNat ≤ 57 then c.toNat - 48
  else if 97 ≤ c.toNat then c.toNat - 87
  else c.toNat - 55

/-- JSON string body, after the opening quote: returns content and the
remainder after the closing quote.  The `\u` escape is modelled for
non-surrogate code points (surrogate escapes do not occur in this
repository's payloads and make the parse fail here). -/
def parseJsonString (fuel : Nat) (cs : List Char) : Option (List Char × List Char) :=
  match fuel, cs with
  | 0, _ => none
  | _ + 1, [] => none
  | f + 1, c :: rest =>
    if c = '"' then some ([], rest)
    else if c = '\\' then
      match rest with
      | [] => none
      | e :: rest2 =>
        if e = '"' ∨ e = '\\' ∨ e = '/' then
          (parseJsonString f rest2).map fun pr => (e :: pr.1, pr.2)
        else if e = 'b' then (parseJsonString f rest2).map fun pr => (Char.ofNat 8 :: pr.1, pr.2)
        else if e = 'f' then (parseJsonString f rest2).map fun pr => (Char.ofNat 12 :: pr.1, pr.2)
        else if e = 'n' then (parseJsonString f rest2).map fun pr => (Char.ofNat 10 :: pr.1, pr.2)
        else if e = 'r' then (parseJsonString f rest2).map fun pr => (Char.ofNat 13 :: pr.1, pr.2)
        else if e = 't' then (parseJsonString f rest2).map fun pr => (Char.ofNat 9 :: pr.1, pr.2)
        else if e = 'u' then
          match rest2 with
          | h1 :: h2 :: h3 :: h4 :: rest3 =>
            if isHexCharCI h1 && isHexCharCI h2 && isHexCharCI h3 && isHexCharCI h4 then
              let code := ((hexVal h1 * 16 + hexVal h2) * 16 + hexVal h3) * 16 + hexVal h4
              if 55296 ≤ code ∧ code ≤ 57343 then none
              else (parseJsonString f rest3).map fun pr => (Char.ofNat code :: pr.1, pr.2)
            else none
          | _ => none
        else none
    else if c.toNat < 32 then none
    else (parseJsonString f rest).map fun pr => (c :: pr.1, pr.2)

/-- JSON number, restricted to the integer fragment (this repository's
payloads and logs carry only integers; a fraction or exponent makes the
parse fail in this model). -/
def parseJsonNumber (cs : List Char) : Option (Int × List Char) :=
  let core : List Char → Option (Nat × List Char) := fun l =>
    let ds := l.takeWhile Char.isDigit
    let r := l.dropWhile Char.isDigit
    if ds = [] then none
    else if ds.head? = some '0' ∧ 1 < ds.length then none
    else match r with
      | '.' :: _ => none
      | 'e' :: _ => none
      | 'E' :: _ => none
      | _ => some (digitsToNat ds, r)
  match cs with
  | '-' :: rest => (core rest).map fun pr => (-(pr.1 : Int), pr.2)
  | _ => (core cs).map fun pr => ((pr.1 : Int), pr.2)

mutual

/-- Recursive-descent model of `JSON.parse`, fuelled (the fuel passed by
`jsonParse` exceeds any possible recursion depth on its input). -/
def parseJsonValue : Nat → List Char → Option (Json × List Char)
  | 0, _ => none
  | f + 1, cs =>
    match cs.dropWhile jsonWs with
    | [] => none
    | c :: rest =>
      if c = '"' then
        (parseJsonString f rest).map fun pr => (Json.str (String.mk pr.1), pr.2)
      else if c = Char.ofNat 123 then parseJsonFieldsStart f rest
      else if c = '[' then parseJsonElemsStart f rest
      else if c = 't' then
        if "rue".data.isPrefixOf rest then some (Json.bool true, rest.drop 3) else none
      else if c = 'f' then
        if "alse".data.isPrefixOf rest then some (Json.bool false, rest.drop 4) else none
      else if c = 'n' then
        if "ull".data.isPrefixOf rest then some (Json.null, rest.drop 3) else none
      else
        (parseJsonNumber (c :: rest)).map fun pr => (Json.num pr.1, pr.2)

/-- After an opening bracket: an empty array or a comma-separated list. -/
def parseJsonElemsStart : Nat → List Char → Option (Json × List Char)
  | 0, _ => none
  | f + 1, cs =>
    match cs.dropWhile jsonWs with
    | ']' :: rest => some (Json.arr JsonList.nil, rest)
    | cs2 => (parseJsonElemsGo f cs2).map fun pr => (Json.arr pr.1, pr.2)

def parseJsonElemsGo : Nat → List Char → Option (JsonList × List Char)
  | 0, _ => none
  | f + 1, cs =>
    (parseJsonValue f cs).bind fun pr =>
      match pr.2.dropWhile jsonWs with
      | ',' :: rest => (parseJsonElemsGo f rest).map fun tl => (JsonList.cons pr.1 tl.1, tl.2)
      | ']' :: rest => some (JsonList.cons pr.1 JsonList.nil, rest)
      | _ => none

/-- After an opening brace: an empty object or comma-separated members. -/
def parseJsonFieldsStart : Nat → List Char → Option (Json × List Char)
  | 0, _ => none
  | f + 1, cs =>
    match cs.dropWhile jsonWs with
    | c :: rest =>
      if c = Char.ofNat 125 then some (Json.obj JsonFields.nil, rest)
      else (parseJsonFieldsGo f (c :: rest)).map fun pr => (Json.obj pr.1, pr.2)
    | [] => none

def parseJsonFieldsGo : Nat → List Char → Option (JsonFields × List Char)
  | 0, _ => none
  | f + 1, cs =>
    match cs.dropWhile jsonWs with
    | '"' :: rest =>
      (parseJsonString f rest).bind fun key =>
        match (key.2.dropWhile jsonWs) with
        | ':' :: rest2 =>
          (parseJsonValue f rest2).bind fun v =>
            match v.2.dropWhile jsonWs with
            | ',' :: rest3 =>
              (parseJsonFieldsGo f rest3).map fun tl =>
                (JsonFields.cons (String.mk key.1) v.1 tl.1, tl.2)
            | c2 :: rest3 =>
              if c2 = Char.ofNat 125 then
                some (JsonFields.cons (String.mk key.1) v.1 JsonFields.nil, rest3)
              else none
            | [] => none
        | _ => none
    | _ => none

end

/-- Model of `JSON.parse(s)`: `none` is a thrown `SyntaxError`. -/
def jsonParse (s : String) : Option Json :=
  match parseJsonValue (4 * s.data.length + 16) s.data with
  | some (v, rest) => if rest.dropWhile jsonWs = [] then some v else none
  | none => none

/-! ## SHA-256, HMAC (model of node:crypto `createHmac`) and hex encoding -/

/-- Truncate to a 32-bit word. -/
def w32 (n : Nat) : Nat := n % 4294967296

/-- Rotate a 32-bit word right by `n` bits. -/
def rotr32 (x n : Nat) : Nat :=
  w32 (Nat.shiftRight x n + Nat.shiftLeft (x % Nat.shiftLeft 1 n) (32 - n))

def bigSigma0 (x : Nat) : Nat := Nat.xor (rotr32 x 2) (Nat.xor (rotr32 x 13) (rotr32 x 22))

def bigSigma1 (x : Nat) : Nat := Nat.xor (rotr32 x 6) (Nat.xor (rotr32 x 11) (rotr32 x 25))

def smallSigma0 (x : Nat) : Nat :=
  Nat.xor (rotr32 x 7) (Nat.xor (rotr32 x 18) (Nat.shiftRight x 3))

def smallSigma1 (x : Nat) : Nat :=
  Nat.xor (rotr32 x 17) (Nat.xor (rotr32 x 19) (Nat.shiftRight x 10))

def chFn (x y z : Nat) : Nat := Nat.xor (Nat.land x y) (Nat.land (4294967295 - x) z)

def majFn (x y z : Nat) : Nat :=
  Nat.xor (Nat.land x y) (Nat.xor (Nat.land x z) (Nat.land y z))

/-- The 64 SHA-256 round constants. -/
def sha256K : List Nat := [1116352408, 1899447441, 3049323471, 3921009573, 961987163,
  1508970993, 2453635748, 2870763221, 3624381080, 310598401, 607225278, 1426881987,
  1925078388, 2162078206, 2614888103, 3248222580, 3835390401, 4022224774, 264347078,
  604807628, 770255983, 1249150122, 1555081692, 1996064986, 2554220882, 2821834349,
  2952996808, 3210313671, 3336571891, 3584528711, 113926993, 338241895, 666307205,
  773529912, 1294757372, 1396182291, 1695183700, 1986661051, 2177026350, 2456956037,
  2730485921, 2820302411, 3259730800, 3345764771, 3516065817, 3600352804, 4094571909,
  275423344, 430227734, 506948616, 659060556, 883997877, 958139571, 1322822218,
  1537002063, 1747873779, 1955562222, 2024104815, 2227730452, 2361852424, 2428436474,
  2756734187, 3204031479, 3329325298]

/-- The SHA-256 initial hash value. -/
def sha256H0 : List Nat := [1779033703, 3144134277, 1013904242, 2773480762, 1359893119,
  2600822924, 528734635, 1541459225]

/-- Big-endian 8-byte encoding of a length in bits. -/
def beBytes8 (n : Nat) : List Nat :=
  [Nat.shiftRight n 56 % 256, Nat.shiftRight n 48 % 256, Nat.shiftRight n 40 % 256,
   Nat.shiftRight n 32 % 256, Nat.shiftRight n 24 % 256, Nat.shiftRight n 16 % 256,
   Nat.shiftRight n 8 % 256, n % 256]

/-- SHA-256 padding: `0x80`, zeros to 56 mod 64, 8-byte bit length. -/
def sha256Pad (msg : List Nat) : List Nat :=
  let len := msg.length
  let padZeros := (119 - len % 64) % 64
  msg ++ (128 :: List.replicate padZeros 0) ++ beBytes8 (8 * len)

/-- Big-endian 4-byte groups to 32-bit words. -/
def toWordsBE : List Nat → List Nat
  | b0 :: b1 :: b2 :: b3 :: rest => (((b0 * 256 + b1) * 256 + b2) * 256 + b3) :: toWordsBE rest
  | _ => []

/-- Message-schedule extension; `wrev` holds the schedule so far, newest
word first. -/
def extendW : Nat → List Nat → List Nat
  | 0, wrev => wrev
  | k + 1, wrev =>
    let wt := w32 (smallSigma1 (wrev.getD 1 0) + wrev.getD 6 0
      + smallSigma0 (wrev.getD 14 0) + wrev.getD 15 0)
    extendW k (wt :: wrev)

/-- One SHA-256 round on the working state `[a,b,c,d,e,f,g,h]`. -/
def compressStep (st : List Nat) (kw : Nat × Nat) : List Nat :=
  let a := st.getD 0 0
  let b := st.getD 1 0
  let c := st.getD 2 0
  let d := st.getD 3 0
  let e := st.getD 4 0
  let f := st.getD 5 0
  let g := st.getD 6 0
  let h := st.getD 7 0
  let t1 := w32 (h + bigSigma1 e + chFn e f g + kw.1 + kw.2)
  let t2 := w32 (bigSigma0 a + majFn a b c)
  [w32 (t1 + t2), a, b, c, w32 (d + t1), e, f, g]

/-- Compression of one 64-byte block into the hash state. -/
def sha256Compress (hs : List Nat) (block : List Nat) : List Nat :=
  let w0 := toWordsBE block
  let w := (extendW 48 w0.reverse).reverse
  let st := (sha256K.zip w).foldl compressStep hs
  (hs.zip st).map fun p => w32 (p.1 + p.2)

/-- Fold the compression over all 64-byte blocks (the fuel passed by
`sha256` dominates the block count). -/
def sha256Blocks : Nat → List Nat → List Nat → List Nat
  | 0, hs, _ => hs
  | _ + 1, hs, [] => hs
  | fuel + 1, hs, bytes => sha256Blocks fuel (sha256Compress hs (bytes.take 64)) (bytes.drop 64)

/-- SHA-256 of a byte list. -/
def sha256 (msg : List Nat) : List Nat :=
  let padded := sha256Pad msg
  let hs := sha256Blocks padded.length sha256H0 padded
  hs.flatMap fun wrd => [Nat.shiftRight wrd 24 % 256, Nat.shiftRight wrd 16 % 256,
    Nat.shiftRight wrd 8 % 256, wrd % 256]

/-- Lowercase hex encoding of a byte list (`digest("hex")`). -/
def bytesToHex (bs : List Nat) : List Char :=
  bs.flatMap fun b => [hexDigitChar (b / 16), hexDigitChar (b % 16)]

/-- Hex decoding by pairs (`Buffer.from(hex, "hex")`), either case. -/
def hexToBytes : List Char → List Nat
  | c1 :: c2 :: rest => (hexVal c1 * 16 + hexVal c2) :: hexToBytes rest
  | _ => []

/-- UTF-8 encoding of one code point. -/
def utf8Char (c : Char) : List Nat :=
  let n := c.toNat
  if n < 128 then [n]
  else if n < 2048 then [192 + n / 64, 128 + n % 64]
  else if n < 65536 then [224 + n / 4096, 128 + n / 64 % 64, 128 + n % 64]
  else [240 + n / 262144, 128 + n / 4096 % 64, 128 + n / 64 % 64, 128 + n % 64]

/-- UTF-8 bytes of a string (how node:crypto hashes string inputs). -/
def utf8Encode (s : String) : List Nat := s.data.flatMap utf8Char

/-- HMAC-SHA256 (`createHmac("sha256", secret).update(body)`). -/
def hmacSha256 (key msg : List Nat) : List Nat :=
  let k0 := if 64 < key.length then sha256 key else key
  let kpad := k0 ++ List.replicate (64 - k0.length) 0
  let ipadKey := kpad.map fun b => Nat.xor b 54
  let opadKey := kpad.map fun b => Nat.xor b 92
  sha256 (opadKey ++ sha256 (ipadKey ++ msg))

/-- Embedding of `verifyGitHubSignature` (index.ts:567-589).  The second
argument is the already-parsed request body: the function hashes
`JSON.stringify(payload)`, not the raw bytes the sender signed. -/
def verifyGitHubSignature (signatureHeader : String) (payload : Json) (secret : String) : Bool :=
  let t := jsTrimChars signatureHeader.data
  if "sha256=".data.isPrefixOf t then
    let signatureHex := t.drop 7
    if signatureHex.length = 64 && signatureHex.all isHexCharCI then
      let expectedHex :=
        bytesToHex (hmacSha256 (utf8Encode secret) (utf8Encode (jsonStringify payload)))
      let received := hexToBytes signatureHex
      let expected := hexToBytes expectedHex
      if received.length = expected.length then received == expected else false
    else false
  else false

/-! ## Webhook handler (app.post("/v1/webhooks/github"), index.ts:1479-1587) -/

/-- Lowercasing at the character level (`String.prototype.toLowerCase`,
basic-latin faithful). -/
def lowerStr (s : String) : String :=
  String.mk (s.data.map Char.toLower)

/-- Embedding of `extractHeaderValue` (index.ts:524-529) for a scalar
header (a repeated header, where node gives an array and the code takes
its first element, is not modelled). -/
def extractHeaderValue (v : Option String) : String :=
  jsTrim (v.getD "")

/-- Embedding of `branchFromRef` (index.ts:531-538). -/
def branchFromRef (ref : Option String) : String :=
  let rawRef := jsTrim (ref.getD "")
  if "refs/heads/".data.isPrefixOf rawRef.data then String.mk (rawRef.data.drop 11)
  else ""

/-- Strip one trailing `.git`, case-insensitively (`replace(/\.git$/i, "")`). -/
def stripDotGit (cs : List Char) : List Char :=
  if 4 ≤ cs.length ∧ (cs.drop (cs.length - 4)).map Char.toLower = ".git".data then
    cs.take (cs.length - 4)
  else cs

/-- Split on `'/'` (`split("/")`). -/
def splitSlash : List Char → List (List Char)
  | [] => [[]]
  | c :: rest =>
    match splitSlash rest with
    | [] => [[c]]
    | g :: gs => if c = '/' then [] :: g :: gs else (c :: g) :: gs

/-- Embedding of `canonicalRepoName` (index.ts:399-403): trim, strip a
trailing `.git`, take the last non-empty `/`-segment, lowercase, strip
non-`[a-z0-9]`. -/
def canonicalRepoName (input : String) : String :=
  let trimmed := stripDotGit (jsTrimChars input.data)
  let segs := (splitSlash trimmed).filter (· ≠ [])
  let lastSegment := (segs.getLast?).getD trimmed
  String.mk ((lastSegment.map Char.toLower).filter isSlugChar)

/-- The `repoMatches` test of `findAutoDeployProject` (index.ts:550-552):
a configured repository containing `/` compares (lowercased) against the
lowercased, trimmed incoming full name; one without `/` compares its
canonical form against the incoming canonical form. -/
def repoMatchesOf (incomingFullName incomingRepoCanonical : String)
    (project : AutoDeployProjectConfig) : Bool :=
  if (lowerStr project.repository).data.contains '/' then
    lowerStr project.repository = incomingFullName
  else
    project.repositoryCanonical = incomingRepoCanonical

/-- The branch test of `findAutoDeployProject` (index.ts:557): configured
`*` matches everything, otherwise exact equality. -/
def branchMatchesOf (branch : String) (project : AutoDeployProjectConfig) : Bool :=
  project.branch = "*" || project.branch = branch

/-- The project-iteration loop of `findAutoDeployProject` (index.ts:548-562),
with the incoming comparison keys hoisted. -/
def findAutoDeployProjectGo (incomingFullName incomingRepoCanonical branch : String) :
    List AutoDeployProjectConfig → Option AutoDeployProjectConfig
  | [] => none
  | project :: rest =>
    if repoMatchesOf incomingFullName incomingRepoCanonical project then
      if branchMatchesOf branch project then some project
      else findAutoDeployProjectGo incomingFullName incomingRepoCanonical branch rest
    else findAutoDeployProjectGo incomingFullName incomingRepoCanonical branch rest

/-- Embedding of `findAutoDeployProject` (index.ts:540-565); the configured
project list is passed explicitly (it is module state in the source). -/
def findAutoDeployProject (projects : List AutoDeployProjectConfig)
    (repositoryName repositoryFullName branch : String) :
    Option AutoDeployProjectConfig :=
  findAutoDeployProjectGo (lowerStr (jsTrim repositoryFullName))
    (canonicalRepoName (if repositoryName = "" then repositoryFullName else repositoryName))
    branch projects

/-- The predicate of the spec's project-matching sentence, for comparison
with `findAutoDeployProject`: repository with `/` compares to the incoming
full name case-insensitively, repository without `/` compares canonical
forms; branch `*` matches anything, otherwise exact equality. -/
def specProjectMatch (repositoryName repositoryFullName branch : String)
    (p : AutoDeployProjectConfig) : Bool :=
  repoMatchesOf (lowerStr (jsTrim repositoryFullName))
    (canonicalRepoName (if repositoryName = "" then repositoryFullName else repositoryName)) p
    && branchMatchesOf branch p

/-- The serialization key `queueAutoDeploy` uses (index.ts:650):
the configured project branch, not the pushed branch. -/
def queueKeyOf (project : AutoDeployProjectConfig) : String :=
  project.projectSlug ++ ":" ++ project.branch

/-- The process configuration the webhook handler reads (all module state
in the source; the token and secret are trimmed at load, index.ts:239-240). -/
structure WebhookEnv where
  autoDeployEnabled : Bool
  autoDeployWebhookToken : String
  githubWebhookSecret : String
  autoDeployProjects : List AutoDeployProjectConfig

/-- The distinguishable responses of the webhook endpoint. -/
inductive WebhookOutcome where
  | invalidPayload
  | disabled
  | authMissing
  | invalidToken
  | invalidSignature
  | pingOk
  | ignoredEvent (event : String)
  | noProjects
  | ignoredNonBranch
  | ignoredDeleted (branch : String)
  | missingRepository
  | ignoredNoMatch (repo branch : String)
  | queued (project : AutoDeployProjectConfig) (branch : String) (queueKey : String)
deriving DecidableEq

/-- `typeof payload === "object" && payload` (JSON values that are JS
objects: objects and arrays; null is falsy). -/
def isJsObject : Json → Bool
  | .obj _ => true
  | .arr _ => true
  | _ => false

/-- `payload.key` on a parsed JSON value (`undefined` for non-objects and
absent keys). -/
def jsonGetField (j : Json) (k : String) : Option Json :=
  match j with
  | .obj fs => fs.get? k
  | _ => none

/-- A field read that is then used as `string | undefined` (`null` and
absent both behave as `undefined`; a non-string value would throw at the
subsequent string-method call, which is not modelled — the payloads
considered here are well-typed). -/
def jsonFieldStr? (j : Json) (k : String) : Option String :=
  match jsonGetField j k with
  | some (.str s) => some s
  | _ => none

/-- JavaScript truthiness of `payload.deleted`. -/
def jsTruthy : Option Json → Bool
  | none => false
  | some .null => false
  | some (.bool b) => b
  | some (.num n) => n ≠ 0
  | some (.str s) => s ≠ ""
  | some (.arr _) => true
  | some (.obj _) => true

/-- `(payload.repository?.name ?? "").trim()` (index.ts:1553). -/
def repoNameOf (payload : Json) : String :=
  jsTrim (((jsonGetField payload "repository").bind fun r => jsonFieldStr? r "name").getD "")

/-- `(payload.repository?.full_name ?? repositoryName).trim()` (index.ts:1554). -/
def repoFullNameOf (payload : Json) : String :=
  jsTrim (((jsonGetField payload "repository").bind fun r =>
    jsonFieldStr? r "full_name").getD (repoNameOf payload))

/-- The branch a push payload targets (index.ts:1538). -/
def pushBranchOf (payload : Json) : String :=
  branchFromRef (jsonFieldStr? payload "ref")

/-- The push-processing tail of the webhook handler (index.ts:1518-1587),
after payload validation and authentication. -/
def webhookAfterAuth (env : WebhookEnv) (event : String) (payload : Json) :
    WebhookOutcome :=
  if event = "ping" then .pingOk
  else if event ≠ "push" then .ignoredEvent event
  else if env.autoDeployProjects.length = 0 then .noProjects
  else if pushBranchOf payload = "" then .ignoredNonBranch
  else if jsTruthy (jsonGetField payload "deleted") then
    .ignoredDeleted (pushBranchOf payload)
  else if repoFullNameOf payload = "" then .missingRepository
  else
    match findAutoDeployProject env.autoDeployProjects (repoNameOf payload)
        (repoFullNameOf payload) (pushBranchOf payload) with
    | none => .ignoredNoMatch (repoFullNameOf payload) (pushBranchOf payload)
    | some project => .queued project (pushBranchOf payload) (queueKeyOf project)

/-- Embedding of the webhook handler `app.post("/v1/webhooks/github")`
(index.ts:1479-1587) as a pure function of the configuration and request.
`body = none` stands for a missing or primitive (non-object) request body. -/
def handleGitHubWebhook (env : WebhookEnv) (queryToken : Option String)
    (eventHeader : Option String) (signatureHeader : Option String)
    (body : Option Json) : WebhookOutcome :=
  let event := lowerStr (extractHeaderValue eventHeader)
  match body with
  | none => .invalidPayload
  | some payload =>
    if ¬ isJsObject payload then .invalidPayload
    else if ¬ env.autoDeployEnabled then .disabled
    else if env.autoDeployWebhookToken = "" ∧ env.githubWebhookSecret = "" then .authMissing
    else if env.autoDeployWebhookToken ≠ "" then
      if jsTrim (queryToken.getD "") ≠ env.autoDeployWebhookToken then .invalidToken
      else webhookAfterAuth env event payload
    else if ¬ verifyGitHubSignature (extractHeaderValue signatureHeader) payload
        env.githubWebhookSecret then .invalidSignature
    else webhookAfterAuth env event payload

/-! ## Concrete fixtures used by several claims -/

/-- A project configured `repository: "org/acme", branch: "main"` (the
spec's auto-deploy example). -/
def pAcme : AutoDeployProjectConfig :=
  ⟨"Acme App", "acme-app", "org/acme", "acme", "main", "/var/www/projects/web/acme",
    "npm run deploy", "Production", none, []⟩

/-- The same project with the wildcard branch `*`. -/
def pStar : AutoDeployProjectConfig :=
  ⟨"Acme App", "acme-app", "org/acme", "acme", "*", "/var/www/projects/web/acme",
    "npm run deploy", "Production", none, []⟩

/-- Webhook configuration: enabled, token auth, one `main`-branch project. -/
def envAcme : WebhookEnv := ⟨true, "t", "", [pAcme]⟩

/-- Webhook configuration: enabled, token auth, one wildcard project. -/
def envStar : WebhookEnv := ⟨true, "t", "", [pStar]⟩

/-- Webhook configuration with BOTH auth modes set (not exactly one). -/
def envBoth : WebhookEnv := ⟨true, "t", "s", []⟩

/-- A push payload for `refs/heads/main` of `org/acme`. -/
def payloadMain : Json :=
  Json.obj (JsonFields.cons "ref" (Json.str "refs/heads/main")
    (JsonFields.cons "repository"
      (Json.obj (JsonFields.cons "name" (Json.str "acme")
        (JsonFields.cons "full_name" (Json.str "org/acme") JsonFields.nil)))
      JsonFields.nil))

/-- The same push aimed at `refs/heads/develop`. -/
def payloadDevelop : Json :=
  Json.obj (JsonFields.cons "ref" (Json.str "refs/heads/develop")
    (JsonFields.cons "repository"
      (Json.obj (JsonFields.cons "name" (Json.str "acme")
        (JsonFields.cons "full_name" (Json.str "org/acme") JsonFields.nil)))
      JsonFields.nil))

/-! ## Host normalization and access-log line parsing (index.ts:772-1021) -/

/-- Split a character list on a separator (`String.prototype.split`). -/
def splitOnCh (sep : Char) : List Char → List (List Char)
  | [] => [[]]
  | c :: rest =>
    match splitOnCh sep rest with
    | [] => [[c]]
    | g :: gs => if c = sep then [] :: g :: gs else (c :: g) :: gs

/-- Strip a trailing `:digits` (`replace(/:\d+$/, "")`). -/
def stripPortSuffix (cs : List Char) : List Char :=
  let rev := cs.reverse
  let digits := rev.takeWhile Char.isDigit
  match rev.drop digits.length with
  | ':' :: rest => if digits = [] then cs else rest.reverse
  | _ => cs

/-- Embedding of `normalizeHost` (index.ts:772-779): trim, lowercase,
strip a leading `http(s)://`, strip from the first `/`, strip `:port`. -/
def normalizeHost (rawHost : String) : String :=
  let t := (jsTrimChars rawHost.data).map Char.toLower
  let t2 := if "https://".data.isPrefixOf t then t.drop 8
    else if "http://".data.isPrefixOf t then t.drop 7 else t
  String.mk (stripPortSuffix (t2.takeWhile (· ≠ '/')))

/-- `^\d{1,3}(\.\d{1,3}){3}$` — a dotted-quad IPv4 shape. -/
def isDottedQuad (cs : List Char) : Bool :=
  let gs := splitOnCh '.' cs
  gs.length = 4 && gs.all (fun g => g ≠ [] && g.length ≤ 3 && g.all Char.isDigit)

/-- Embedding of `coerceStatusCode` (index.ts:891-905) on a JSON field
value: numbers and numeric strings in `[100, 599]` (truncated), else null. -/
def coerceStatusCode : Option Json → Option Int
  | some (.num n) => if 100 ≤ n ∧ n ≤ 599 then some n else none
  | some (.str s) =>
    match jsNumberOfString s with
    | none => none
    | some v =>
      let r := jsTrunc v
      if 100 ≤ r ∧ r ≤ 599 then some r else none
  | _ => none

/-- Embedding of `parseRequestLine` (index.ts:907-916): method and path
from a `"METHOD /path ..."` request line, defaulting to `GET /`. -/
def parseRequestLine (rawValue : String) : String × String :=
  let t := jsTrimChars rawValue.data
  let letters := t.takeWhile Char.isAlpha
  let rest := t.drop letters.length
  let spaces := rest.takeWhile Char.isWhitespace
  let rest2 := rest.drop spaces.length
  let word := rest2.takeWhile (fun c => ¬ c.isWhitespace)
  if letters ≠ [] ∧ spaces ≠ [] ∧ word ≠ [] then
    (String.mk (letters.map Char.toUpper), String.mk word)
  else ("GET", "/")

/-- The platform date functions the log pipeline uses, passed explicitly:
`Date.parse` (`none` is NaN), `new Date(ms).toISOString()`, `Date.now()`. -/
structure DateCtx where
  dateParse : String → Option Int
  isoOfMs : Int → String
  nowMs : Int

/-- The regex replace `^(\d{1,2}\/[A-Za-z]{3}\/\d{4}):` → `"$1 "` of
`parseNginxTimestamp`: turn the colon before the time into a space. -/
def nginxDateNormalize (cs : List Char) : List Char :=
  let d1 := cs.takeWhile Char.isDigit
  if d1.length = 1 ∨ d1.length = 2 then
    match cs.drop d1.length with
    | '/' :: r1 =>
      let a := r1.takeWhile Char.isAlpha
      if a.length = 3 then
        match r1.drop 3 with
        | '/' :: r2 =>
          let y := r2.takeWhile Char.isDigit
          if y.length = 4 then
            match r2.drop 4 with
            | ':' :: r3 => d1 ++ '/' :: a ++ '/' :: (y ++ ' ' :: r3)
            | _ => cs
          else cs
        | _ => cs
      else cs
    | _ => cs
  else cs

/-- Embedding of `parseNginxTimestamp` (index.ts:851-858). -/
def parseNginxTimestamp (D : DateCtx) (rawValue : String) : Option String :=
  match D.dateParse (String.mk (nginxDateNormalize (jsTrimChars rawValue.data))) with
  | none => none
  | some ms => some (D.isoOfMs ms)

/-- Embedding of `toIsoTimestamp` (index.ts:860-889): epoch numbers
(seconds if at most 10^12, else milliseconds; invalid beyond the Date
range of 8.64e15 ms), or strings via the nginx pattern then generic date
parsing. -/
def toIsoTimestamp (D : DateCtx) (rawValue : Option Json) : Option String :=
  match rawValue with
  | some (.num n) =>
    let asMs : Int := if 1000000000000 < n then n else n * 1000
    if asMs.natAbs ≤ 8640000000000000 then some (D.isoOfMs asMs) else none
  | some (.str s) =>
    let trimmed := jsTrim s
    if trimmed = "" then none
    else
      match parseNginxTimestamp D trimmed with
      | some iso => some iso
      | none =>
        match D.dateParse trimmed with
        | none => none
        | some ms => some (D.isoOfMs ms)
  | _ => none

/-- The normalized shape of one parsed access-log line
(`ParsedRequestLogLine`, index.ts:82-91). -/
structure ParsedRequestLogLine where
  timestamp : Option String
  method : String
  statusCode : Option Int
  host : String
  path : String
  message : String
  remoteAddr : Option String
  projectHint : Option String
deriving Repr, DecidableEq

/-- A field used via `??` (null and absent both fall through). -/
def jsonFieldNN (j : Json) (k : String) : Option Json :=
  match jsonGetField j k with
  | some Json.null => none
  | v => v

/-- Embedding of `parseJsonRequestLogLine` (index.ts:918-992). -/
def parseJsonRequestLogLine (D : DateCtx) (line : String) : Option ParsedRequestLogLine :=
  if line.data.head? ≠ some (Char.ofNat 123) ∨ line.data.getLast? ≠ some (Char.ofNat 125) then
    none
  else
    match jsonParse line with
    | some (Json.obj fs) =>
      let o := Json.obj fs
      let rawRequest := (jsonFieldStr? o "request").getD ((jsonFieldStr? o "httpRequest").getD "")
      let requestLine := parseRequestLine rawRequest
      let method :=
        match jsonFieldStr? o "method" with
        | some m =>
          let u := String.mk ((jsTrimChars m.data).map Char.toUpper)
          if u = "" then requestLine.1 else u
        | none => requestLine.1
      let pathValue :=
        match jsonFieldStr? o "path" with
        | some p => let t := jsTrim p; if t = "" then requestLine.2 else t
        | none =>
          match jsonFieldStr? o "url" with
          | some u => let t := jsTrim u; if t = "" then requestLine.2 else t
          | none =>
            match jsonFieldStr? o "requestPath" with
            | some rp => let t := jsTrim rp; if t = "" then requestLine.2 else t
            | none => requestLine.2
      let statusCode := coerceStatusCode (jsonFieldNN o "statusCode" <|> jsonFieldNN o "status")
      let host := (jsonFieldStr? o "host").getD
        ((jsonFieldStr? o "hostname").getD ((jsonFieldStr? o "domain").getD ""))
      let remoteAddr := jsonFieldStr? o "remoteAddr" <|> jsonFieldStr? o "ip"
        <|> jsonFieldStr? o "clientIp"
      let projectHint := jsonFieldStr? o "projectSlug" <|> jsonFieldStr? o "project"
        <|> jsonFieldStr? o "projectName"
      let timestamp := toIsoTimestamp D (jsonFieldNN o "timestamp" <|> jsonFieldNN o "time"
        <|> jsonFieldNN o "loggedAt" <|> jsonFieldNN o "createdAt" <|> jsonFieldNN o "date")
      let message := (jsonFieldStr? o "message").getD
        ((jsonFieldStr? o "msg").getD (method ++ " " ++ pathValue))
      some {
        timestamp := timestamp
        method := if method = "" then "GET" else method
        statusCode := statusCode
        host := host
        path := if pathValue = "" then "/" else pathValue
        message :=
          let mt := jsTrim message
          if mt = "" then method ++ " " ++ (if pathValue = "" then "/" else pathValue) else mt
        remoteAddr := remoteAddr
        projectHint := projectHint }
    | _ => none

/-- All `"([^"]*)"` matches of a character list, left to right
(`matchAll`), fuelled by the input length. -/
def quotedFieldsGo : Nat → List Char → List (List Char)
  | 0, _ => []
  | fuel + 1, cs =>
    match cs.dropWhile (· ≠ '"') with
    | '"' :: rest =>
      let content := rest.takeWhile (· ≠ '"')
      match rest.drop content.length with
      | '"' :: rest2 => content :: quotedFieldsGo fuel rest2
      | _ => []
    | _ => []

/-- Embedding of `extractHostFromQuotedFields` (index.ts:812-827): the
first quoted field that, normalized, looks like a host. -/
def extractHostFromQuotedFields : List (List Char) → String
  | [] => ""
  | f :: rest =>
    let value := jsTrimChars f
    if value = [] ∨ value = ['-'] then extractHostFromQuotedFields rest
    else if value.contains ' ' then extractHostFromQuotedFields rest
    else
      let normalized := normalizeHost (String.mk value)
      let looksLikeHost := normalized = "localhost" ∨ isDottedQuad normalized.data
        ∨ normalized.data.contains '.'
      if normalized ≠ "" ∧ looksLikeHost then normalized
      else extractHostFromQuotedFields rest

/-- The combined-log-format regex of `parseNginxRequestLogLine`
(index.ts:995-997), as a deterministic matcher (every quantified class in
the regex is disjoint from its successor, so greedy matching is exact):
returns (remote, time, request, status, rest). -/
def nginxMatch (cs : List Char) : Option (List Char × List Char × List Char × List Char × List Char) :=
  let remote := cs.takeWhile (fun c => ¬ c.isWhitespace)
  if remote = [] then none else
  let r1 := cs.drop remote.length
  let w1 := r1.takeWhile Char.isWhitespace
  if w1 = [] then none else
  let t1 := (r1.drop w1.length).takeWhile (fun c => ¬ c.isWhitespace)
  if t1 = [] then none else
  let r2 := (r1.drop w1.length).drop t1.length
  let w2 := r2.takeWhile Char.isWhitespace
  if w2 = [] then none else
  let t2 := (r2.drop w2.length).takeWhile (fun c => ¬ c.isWhitespace)
  if t2 = [] then none else
  let r3 := (r2.drop w2.length).drop t2.length
  let w3 := r3.takeWhile Char.isWhitespace
  if w3 = [] then none else
  match r3.drop w3.length with
  | '[' :: r4 =>
    let time := r4.takeWhile (· ≠ ']')
    if time = [] then none else
    match r4.drop time.length with
    | ']' :: r5 =>
      let w4 := r5.takeWhile Char.isWhitespace
      if w4 = [] then none else
      match r5.drop w4.length with
      | '"' :: r6 =>
        let request := r6.takeWhile (· ≠ '"')
        match r6.drop request.length with
        | '"' :: r7 =>
          let w5 := r7.takeWhile Char.isWhitespace
          if w5 = [] then none else
          let r8 := r7.drop w5.length
          let ds := r8.takeWhile Char.isDigit
          let statusRest : Option (List Char × List Char) :=
            if ds.length = 3 then some (ds, r8.drop 3)
            else if ds = [] then
              match r8 with
              | '-' :: r9 => some (['-'], r9)
              | _ => none
            else none
          match statusRest with
          | none => none
          | some (status, r9) =>
            let w6 := r9.takeWhile Char.isWhitespace
            if w6 = [] then none else
            let size := (r9.drop w6.length).takeWhile (fun c => ¬ c.isWhitespace)
            if size = [] then none else
            some (remote, time, request, status, (r9.drop w6.length).drop size.length)
        | _ => none
      | _ => none
    | _ => none
  | _ => none

/-- Embedding of `parseNginxRequestLogLine` (index.ts:994-1017). -/
def parseNginxRequestLogLine (D : DateCtx) (line : String) : Option ParsedRequestLogLine :=
  match nginxMatch line.data with
  | none => none
  | some (remote, time, request, status, rest) =>
    let requestLine := parseRequestLine (String.mk request)
    some {
      timestamp := parseNginxTimestamp D (String.mk time)
      method := requestLine.1
      statusCode := coerceStatusCode (some (Json.str (String.mk status)))
      host := extractHostFromQuotedFields (quotedFieldsGo rest.length rest)
      path := requestLine.2
      message := requestLine.1 ++ " " ++ requestLine.2
      remoteAddr := let t := jsTrimChars remote; if t = [] then none else some (String.mk t)
      projectHint := none }

/-- Embedding of `parseRequestLogLine` (index.ts:1019-1021): JSON first,
then the combined log format. -/
def parseRequestLogLine (D : DateCtx) (line : String) : Option ParsedRequestLogLine :=
  parseJsonRequestLogLine D line <|> parseNginxRequestLogLine D line

/-! ## Project attribution (index.ts:1023-1081) and the read pipeline -/

/-- The fallback project of the registry (index.ts:194). -/
def fallbackProjectSlug : String := "kani-taxi"

/-- Display name of the fallback project (index.ts:195). -/
def fallbackProjectName : String := "KANI TAXI"

/-- The module-level configuration the log pipeline reads: the project
registry, the process environment, and the host constants computed at
startup (index.ts:201-260). -/
structure AppEnv where
  projects : List AutoDeployProjectConfig
  getEnv : String → Option String
  defaultScreenshotTargetUrl : String
  localServerHost : String
  dashboardKnownHosts : List String

/-- `autoDeployProjects[0]?.projectSlug ?? fallbackProjectSlug`. -/
def defaultProjectSlug (env : AppEnv) : String :=
  ((env.projects.head?).map (·.projectSlug)).getD fallbackProjectSlug

/-- `autoDeployProjects[0]?.projectName ?? fallbackProjectName`. -/
def defaultProjectName (env : AppEnv) : String :=
  ((env.projects.head?).map (·.projectName)).getD fallbackProjectName

/-- `autoDeployProjectsBySlug.get(slug)`: the Map is built from the list,
so a duplicate slug keeps the last project. -/
def projectBySlug (env : AppEnv) (slug : String) : Option AutoDeployProjectConfig :=
  (env.projects.filter (fun p => p.projectSlug = slug)).getLast?

/-- Embedding of `resolveProjectSlug` (index.ts:283-292). -/
def resolveProjectSlug (env : AppEnv) (input : Option String) : String :=
  match input with
  | none => defaultProjectSlug env
  | some i =>
    if i = "" then defaultProjectSlug env
    else
      let normalized := normalizeProject i
      if normalized = "" then defaultProjectSlug env else normalized

/-- Embedding of `resolveProjectName` (index.ts:294-296). -/
def resolveProjectName (env : AppEnv) (projectSlug : String) : String :=
  ((projectBySlug env projectSlug).map (·.projectName)).getD (defaultProjectName env)

/-- The per-project env prefix: dashes replaced by underscores, uppercased. -/
def envKeyPrefix (slug : String) : String :=
  String.mk ((slug.data.map (fun c => if c = '-' then '_' else c)).map Char.toUpper)

/-- Embedding of `resolveProjectPreviewUrl` (index.ts:298-308). -/
def resolveProjectPreviewUrl (env : AppEnv) (projectSlug : String) : String :=
  let perProjectUrl := jsTrim ((env.getEnv (envKeyPrefix projectSlug ++ "_PREVIEW_URL")).getD "")
  if perProjectUrl ≠ "" then perProjectUrl
  else if projectSlug = defaultProjectSlug env then env.defaultScreenshotTargetUrl
  else ""

/-- Model of `new URL(u).hostname` on simple absolute URLs
(`scheme://[userinfo@]host[:port][/...]`); anything else throws (`none`). -/
def urlHostname (u : String) : Option String :=
  let cs := u.data
  let scheme := cs.takeWhile Char.isAlpha
  if scheme = [] then none else
  match cs.drop scheme.length with
  | ':' :: '/' :: '/' :: rest =>
    let auth := rest.takeWhile (fun c => c ≠ '/' ∧ c ≠ '?' ∧ c ≠ '#')
    if auth = [] then none else
    let host := ((splitOnCh '@' auth).getLast?).getD auth
    let hostOnly := host.takeWhile (· ≠ ':')
    if hostOnly = [] then none else some (String.mk (hostOnly.map Char.toLower))
  | _ => none

/-- Embedding of `resolveProjectPreviewHost` (index.ts:781-790). -/
def resolveProjectPreviewHost (env : AppEnv) (projectSlug : String) : String :=
  let previewUrl := resolveProjectPreviewUrl env projectSlug
  if previewUrl = "" then ""
  else
    match urlHostname previewUrl with
    | some h => normalizeHost h
    | none => normalizeHost previewUrl

/-- Embedding of `asDomainList` (index.ts:435-441) for one env value. -/
def asDomainList (v : Option String) : List String :=
  match v with
  | none => []
  | some s => ((splitOnCh ',' s.data).map (fun e => normalizeHost (String.mk e))).filter (· ≠ "")

/-- Order-preserving de-duplication (`[...new Set(xs)]`). -/
def dedupStr (l : List String) : List String :=
  l.foldl (fun acc x => if acc.contains x then acc else acc ++ [x]) []

/-- Embedding of `resolveProjectConfiguredHosts` (index.ts:792-806). -/
def resolveProjectConfiguredHosts (env : AppEnv) (projectSlug : String) : List String :=
  let pre := envKeyPrefix projectSlug
  let envDomains := asDomainList (env.getEnv (pre ++ "_DOMAINS"))
    ++ asDomainList (env.getEnv (pre ++ "_DOMAIN"))
    ++ asDomainList (env.getEnv (pre ++ "_LIVE_DOMAINS"))
    ++ asDomainList (env.getEnv (pre ++ "_LIVE_DOMAIN"))
  let hosts := ((((projectBySlug env projectSlug).map (·.domains)).getD []) ++ envDomains).map
    normalizeHost
  dedupStr (hosts.filter (· ≠ ""))

/-- Embedding of `projectSlugCanonicalValue` (index.ts:808-810). -/
def projectSlugCanonicalValue (projectSlug : String) : String :=
  String.mk ((projectSlug.data.map Char.toLower).filter isSlugChar)

/-- `haystack.includes(needle)` (JavaScript substring test). -/
def listIncludes (needle : List Char) : List Char → Bool
  | [] => needle.isEmpty
  | c :: rest => needle.isPrefixOf (c :: rest) || listIncludes needle rest

/-- String-level `includes`. -/
def strIncludes (hay needle : String) : Bool :=
  listIncludes needle.data hay.data

/-- The project-hint step of `resolveProjectSlugFromRequestLog`
(index.ts:1024-1032). -/
def resolveHint (env : AppEnv) (entry : ParsedRequestLogLine) : Option String :=
  let hint := normalizeProject (entry.projectHint.getD "")
  if hint = "" then none
  else if (projectBySlug env hint).isSome then some hint
  else if env.projects.length = 0 ∧ hint = fallbackProjectSlug then some hint
  else none

/-- The three host tests of the host loop (index.ts:1040-1053), for one
project: preview host, configured domains, slug-as-host-label. -/
def hostProjectTest (env : AppEnv) (normalizedHost : String) (hostLabels : List String)
    (project : AutoDeployProjectConfig) : Bool :=
  (resolveProjectPreviewHost env project.projectSlug ≠ ""
      && resolveProjectPreviewHost env project.projectSlug = normalizedHost)
  || (resolveProjectConfiguredHosts env project.projectSlug).contains normalizedHost
  || (projectSlugCanonicalValue project.projectSlug ≠ ""
      && hostLabels.contains (projectSlugCanonicalValue project.projectSlug))

/-- The hostname step of `resolveProjectSlugFromRequestLog`
(index.ts:1034-1060). -/
def resolveByHost (env : AppEnv) (normalizedHost : String) : Option String :=
  if normalizedHost = "" then none
  else
    let hostLabels := (((splitOnCh '.' normalizedHost.data).map
      (fun l => String.mk ((l.map Char.toLower).filter isSlugChar))).filter (· ≠ ""))
    match env.projects.find? (hostProjectTest env normalizedHost hostLabels) with
    | some p => some p.projectSlug
    | none =>
      if env.projects.length = 0 then
        let fallbackHost := resolveProjectPreviewHost env fallbackProjectSlug
        if fallbackHost ≠ "" ∧ fallbackHost = normalizedHost then some fallbackProjectSlug
        else none
      else none

/-- The text-heuristic step of `resolveProjectSlugFromRequestLog`
(index.ts:1062-1072). -/
def resolveByText (env : AppEnv) (entry : ParsedRequestLogLine) (normalizedHost : String) :
    Option String :=
  let haystack := lowerStr (entry.path ++ " " ++ entry.message ++ " " ++ normalizedHost)
  let canonicalHaystack := String.mk (haystack.data.filter isSlugChar)
  match env.projects.find? (fun project =>
      strIncludes haystack project.projectSlug
      || (projectSlugCanonicalValue project.projectSlug ≠ ""
          && strIncludes canonicalHaystack (projectSlugCanonicalValue project.projectSlug))) with
  | some p => some p.projectSlug
  | none => none

/-- Embedding of `resolveProjectSlugFromRequestLog` (index.ts:1023-1081):
hint, then hostname, then text heuristic, then cardinality fallback. -/
def resolveProjectSlugFromRequestLog (env : AppEnv) (entry : ParsedRequestLogLine) : String :=
  match resolveHint env entry with
  | some s => s
  | none =>
    let normalizedHost := normalizeHost entry.host
    match resolveByHost env normalizedHost with
    | some s => s
    | none =>
      match resolveByText env entry normalizedHost with
      | some s => s
      | none =>
        if env.projects.length = 1 then ((env.projects.head?).map (·.projectSlug)).getD ""
        else if env.projects.length = 0 then fallbackProjectSlug
        else ""

/-- Embedding of `isControlPlaneRequestPath` (index.ts:829-838). -/
def isControlPlaneRequestPath (pathValue : String) : Bool :=
  let normalizedPath := String.mk (((jsTrimChars pathValue.data).map Char.toLower).takeWhile
    (· ≠ '?'))
  if normalizedPath = "" then false
  else
    let v1Root : Option String :=
      match normalizedPath.data with
      | '/' :: r =>
        let r2opt : Option (List Char) :=
          if "api/v1/".data.isPrefixOf r then some (r.drop 7)
          else if "v1/".data.isPrefixOf r then some (r.drop 3)
          else none
        match r2opt with
        | none => none
        | some l =>
          let root := l.takeWhile (· ≠ '/')
          if root = [] then none else some (String.mk root)
      | _ => none
    match v1Root with
    | some root => root = "projects" ∨ root = "logs" ∨ root = "webhooks"
        ∨ root = "deployments" ∨ root = "oauth"
    | none => normalizedPath = "/v1" ∨ normalizedPath = "/api/v1"

/-- Embedding of `isDashboardUsageRequest` (index.ts:840-849). -/
def isDashboardUsageRequest (env : AppEnv) (host pathValue : String) : Bool :=
  let normalizedHost := normalizeHost host
  if isControlPlaneRequestPath pathValue then true
  else if normalizedHost ≠ "" ∧ env.dashboardKnownHosts.contains normalizedHost then true
  else false

/-- One normalized request-log record (`RequestLogEntry`, index.ts:59-71;
the constant `source` tag is omitted). -/
structure RequestLogEntry where
  logId : String
  timestamp : String
  method : String
  statusCode : Option Int
  host : String
  path : String
  message : String
  projectSlug : String
  projectName : String
  remoteAddr : Option String
deriving Repr, DecidableEq

/-- Embedding of `requestLogTimestamp` (index.ts:1083-1086). -/
def requestLogTimestamp (D : DateCtx) (e : RequestLogEntry) : Int :=
  (D.dateParse e.timestamp).getD 0

/-- `parsedLine.path.trim() || "/"` (index.ts:1110). -/
def pathOrSlash (pl : ParsedRequestLogLine) : String :=
  let pt := jsTrim pl.path
  if pt = "" then "/" else pt

/-- Whether a requested project filter excludes this slug (index.ts:1119). -/
def requestedMismatch (nrp : Option String) (slug : String) : Bool :=
  match nrp with
  | some rp => slug ≠ rp
  | none => false

/-- `parsedLine.timestamp ?? new Date().toISOString()` (index.ts:1124). -/
def entryTimestamp (D : DateCtx) (pl : ParsedRequestLogLine) : String :=
  pl.timestamp.getD (D.isoOfMs D.nowMs)

/-- `Date.parse(timestamp)` guarded to 0 on NaN (index.ts:1133-1134). -/
def stableEpochOf (D : DateCtx) (pl : ParsedRequestLogLine) : Int :=
  (D.dateParse (entryTimestamp D pl)).getD 0

/-- The lower time bound excludes this epoch (index.ts:1135). -/
def startExcluded (s : Option Int) (epoch : Int) : Bool :=
  match s with
  | some s0 => epoch < s0
  | none => false

/-- The upper time bound excludes this epoch (index.ts:1138). -/
def endExcluded (t : Option Int) (epoch : Int) : Bool :=
  match t with
  | some t0 => t0 < epoch
  | none => false

/-- The record pushed for one surviving line (index.ts:1142-1154). -/
def mkRequestLogEntry (env : AppEnv) (D : DateCtx) (idx : Nat)
    (pl : ParsedRequestLogLine) : RequestLogEntry :=
  let inferredProjectSlug := resolveProjectSlugFromRequestLog env pl
  let normalizedParsedHost := normalizeHost pl.host
  let method :=
    let mu := String.mk ((jsTrimChars pl.method.data).map Char.toUpper)
    if mu = "" then "GET" else mu
  { logId := inferredProjectSlug ++ "-" ++ toString (stableEpochOf D pl) ++ "-" ++ toString idx
    timestamp := entryTimestamp D pl
    method := method
    statusCode := pl.statusCode
    host :=
      if normalizedParsedHost ≠ "" then normalizedParsedHost
      else
        let ph := resolveProjectPreviewHost env inferredProjectSlug
        if ph ≠ "" then ph else env.localServerHost
    path := pathOrSlash pl
    message :=
      let mt := jsTrim pl.message
      if mt = "" then method ++ " " ++ pathOrSlash pl else mt
    projectSlug := inferredProjectSlug
    projectName := resolveProjectName env inferredProjectSlug
    remoteAddr := pl.remoteAddr }

/-- The per-line body of the `parseRequestLogEntries` loop
(index.ts:1104-1155): parse, drop dashboard traffic, attribute, filter by
requested project and time range, build the record. -/
def buildRequestLogEntry (env : AppEnv) (D : DateCtx)
    (normalizedRequestedProject : Option String) (startMs endMs : Option Int)
    (idx : Nat) (line : List Char) : Option RequestLogEntry :=
  match parseRequestLogLine D (String.mk line) with
  | none => none
  | some parsedLine =>
    if isDashboardUsageRequest env (normalizeHost parsedLine.host) (pathOrSlash parsedLine)
    then none
    else if resolveProjectSlugFromRequestLog env parsedLine = "" then none
    else if requestedMismatch normalizedRequestedProject
      (resolveProjectSlugFromRequestLog env parsedLine) then none
    else if startExcluded startMs (stableEpochOf D parsedLine) then none
    else if endExcluded endMs (stableEpochOf D parsedLine) then none
    else some (mkRequestLogEntry env D idx parsedLine)

/-- Embedding of `parseRequestLogEntries` (index.ts:1088-1160): split into
trimmed non-empty lines, build entries, sort by timestamp descending
(stable, like JavaScript sort), truncate to `limit`. -/
def parseRequestLogEntries (env : AppEnv) (D : DateCtx) (raw : String)
    (requestedProjectSlug : Option String) (limit : Nat)
    (startMs endMs : Option Int) : List RequestLogEntry :=
  let normalizedRequestedProject :=
    match requestedProjectSlug with
    | some s => if s = "" then none else some (resolveProjectSlug env (some s))
    | none => none
  let lines := ((splitOnCh '
' raw.data).map jsTrimChars).filter (· ≠ [])
  let parsedEntries := lines.enum.filterMap
    (fun pr => buildRequestLogEntry env D normalizedRequestedProject startMs endMs pr.1 pr.2)
  (parsedEntries.mergeSort
    (fun a b => requestLogTimestamp D b ≤ requestLogTimestamp D a)).take limit

/-! ## Deployment tracker parsing (index.ts:1162-1201) -/

/-- One deployment record as returned to the dashboard (`Deployment`,
index.ts:15-30; the constant `source` tag is omitted). -/
structure Deployment where
  deploymentId : String
  environment : String
  status : String
  duration : String
  projectName : String
  branch : String
  commitHash : String
  commitMessage : String
  trackedAt : String
  commitAt : Option String
  createdRelative : String
  author : String
  serverHost : String
deriving Repr, DecidableEq

/-- Embedding of `toRelativeTime` (index.ts:758-770). -/
def toRelativeTime (D : DateCtx) (isoTime : String) : String :=
  match D.dateParse isoTime with
  | none => "just now"
  | some target =>
    let diffSec := (D.nowMs - target) / 1000
    if diffSec < 60 then "just now"
    else
      let diffMin := diffSec / 60
      if diffMin < 60 then toString diffMin ++ " min ago"
      else
        let diffHr := diffMin / 60
        if diffHr < 24 then toString diffHr ++ "h ago"
        else toString (diffHr / 24) ++ "d ago"

/-- Embedding of `mapAuthor` (index.ts:268-273). -/
def mapAuthor (author : String) : String :=
  if strIncludes (lowerStr author) "hello-cms-ai" then "vserver" else author

/-- A tracker field consumed with a default (`entry.f ?? dflt`): absent
and null give the default.  A non-string value is out of the modelled
fragment: the fields below either have a string method called on them
(which would throw, and the throw is swallowed by the line's catch) or
are stored untyped, which a `String`-typed record cannot represent — both
are conservatively modelled as skipping the line. -/
def jsonFieldStrOrDefault (j : Json) (k : String) (dflt : String) : Option String :=
  match jsonGetField j k with
  | none => some dflt
  | some Json.null => some dflt
  | some (Json.str s) => some s
  | some _ => none

/-- `entry.commitAt`: optional, no default. -/
def jsonFieldStrOpt (j : Json) (k : String) : Option (Option String) :=
  match jsonGetField j k with
  | none => some none
  | some Json.null => some none
  | some (Json.str s) => some (some s)
  | some _ => none

/-- One line of the `parseTrackerEntries` loop (index.ts:1170-1197):
parse the JSON, filter by normalized `projectName` against the queried
slug, fill defaults, and build the record — whose `projectName` is the
resolved display name passed in, never the raw line's. -/
def trackerLineEntry (D : DateCtx) (localServerHost expectedProjectSlug expectedProjectName : String)
    (line : List Char) : Option Deployment :=
  match jsonParse (String.mk line) with
  | none => none
  | some j =>
    (jsonFieldStrOrDefault j "projectName" "").bind fun pn =>
    if normalizeProject pn = "" ∨ normalizeProject pn ≠ expectedProjectSlug then none
    else
      (jsonFieldStrOrDefault j "trackedAt" (D.isoOfMs D.nowMs)).bind fun trackedAt =>
      (jsonFieldStrOrDefault j "deploymentId" "unknown").bind fun did =>
      (jsonFieldStrOrDefault j "environment" "Production").bind fun envName =>
      (jsonFieldStrOrDefault j "status" "Ready").bind fun status =>
      (jsonFieldStrOrDefault j "duration" "n/a").bind fun dur =>
      (jsonFieldStrOrDefault j "branch" "main").bind fun br =>
      (jsonFieldStrOrDefault j "commitHash" "unknown").bind fun ch =>
      (jsonFieldStrOrDefault j "commitMessage" "").bind fun cm =>
      (jsonFieldStrOpt j "commitAt").bind fun cat =>
      (jsonFieldStrOrDefault j "author" "unknown").bind fun au =>
      (jsonFieldStrOrDefault j "serverHost" localServerHost).bind fun sh =>
      some {
        deploymentId := String.mk (did.data.map Char.toUpper)
        environment := envName
        status := status
        duration := dur
        projectName := expectedProjectName
        branch := br
        commitHash := ch
        commitMessage := cm
        trackedAt := trackedAt
        commitAt := cat
        createdRelative := toRelativeTime D trackedAt
        author := mapAuthor au
        serverHost := sh }

/-- Embedding of `parseTrackerEntries` (index.ts:1162-1201): split into
trimmed non-empty lines, keep the well-formed ones for the queried
project, newest (last-appended) first. -/
def parseTrackerEntries (D : DateCtx) (localServerHost : String) (raw : String)
    (expectedProjectSlug expectedProjectName : String) : List Deployment :=
  let lines := ((splitOnCh '
' raw.data).map jsTrimChars).filter (· ≠ [])
  (lines.filterMap
    (trackerLineEntry D localServerHost expectedProjectSlug expectedProjectName)).reverse

/-- The two-project configuration of the attribution example: `acme-app`
with domain `acme.example.com`, `beta-app` with no domain. -/
def pAcmeApp : AutoDeployProjectConfig :=
  ⟨"Acme App", "acme-app", "org/acme", "acme", "main", "/srv/acme", "deploy", "Production",
    none, ["acme.example.com"]⟩

/-- The second project of the attribution example. -/
def pBetaApp : AutoDeployProjectConfig :=
  ⟨"Beta App", "beta-app", "org/beta", "beta", "main", "/srv/beta", "deploy", "Production",
    none, []⟩

/-- The attribution example's application environment: the two projects,
no per-project environment variables. -/
def envC7 : AppEnv :=
  ⟨[pAcmeApp, pBetaApp], fun _ => none, "https://kanitaxi.com", "server01",
    ["server01", "localhost"]⟩

end VServer

namespace VServer

/-! ## Theorems: slug normalization (claim C9) -/

theorem mem_collapseRun {c : Char} : ∀ (cs : List Char) (b : Bool),
    c ∈ collapseRun cs b → isSlugChar c = true ∨ c = '-'
  | [], _, h => by simp [collapseRun] at h
  | d :: rest, b, h => by
    cases hd : isSlugChar d with
    | true =>
      simp [collapseRun, hd] at h
      rcases h with h | h
      · exact Or.inl (by rw [h]; exact hd)
      · exact mem_collapseRun rest false h
    | false =>
      cases b with
      | true =>
        simp [collapseRun, hd] at h
        exact mem_collapseRun rest true h
      | false =>
        simp [collapseRun, hd] at h
        rcases h with h | h
        · exact Or.inr h
        · exact mem_collapseRun rest true h

theorem collapseRun_head_ne_dash : ∀ (cs : List Char),
    (collapseRun cs true).head? ≠ some '-'
  | [] => by simp [collapseRun]
  | c :: rest => by
    cases hc : isSlugChar c with
    | true =>
      simp only [collapseRun, hc, if_true, List.head?_cons, ne_eq, Option.some.injEq]
      intro h
      rw [h] at hc
      simp [isSlugChar] at hc
    | false =>
      simpa [collapseRun, hc] using collapseRun_head_ne_dash rest

theorem noDoubleDash_collapseRun : ∀ (cs : List Char) (b : Bool),
    noDoubleDash (collapseRun cs b)
  | [], _ => by simp [collapseRun, noDoubleDash]
  | c :: rest, b => by
    cases hc : isSlugChar c with
    | true =>
      have hstep : collapseRun (c :: rest) b = c :: collapseRun rest false := by
        simp [collapseRun, hc]
      unfold noDoubleDash
      rw [hstep]
      refine List.chain'_cons'.2 ⟨?_, noDoubleDash_collapseRun rest false⟩
      intro y _
      intro hy
      rw [hy.1] at hc
      simp [isSlugChar] at hc
    | false =>
      cases b with
      | true =>
        simpa [noDoubleDash, collapseRun, hc] using noDoubleDash_collapseRun rest true
      | false =>
        have hstep : collapseRun (c :: rest) false = '-' :: collapseRun rest true := by
          simp [collapseRun, hc]
        unfold noDoubleDash
        rw [hstep]
        refine List.chain'_cons'.2 ⟨?_, noDoubleDash_collapseRun rest true⟩
        intro y hy hy2
        rw [Option.mem_def] at hy
        rw [hy2.2] at hy
        exact collapseRun_head_ne_dash rest hy

theorem collapseRun_fixed : ∀ (l : List Char),
    noDoubleDash l → (∀ c ∈ l, isSlugChar c = true ∨ c = '-') →
    (collapseRun l false = l ∧ (l.head? ≠ some '-' → collapseRun l true = l))
  | [] => fun _ _ => ⟨rfl, fun _ => rfl⟩
  | c :: rest => by
    intro hdd hmem
    have hddr : noDoubleDash rest := (List.chain'_cons'.1 hdd).2
    have hmemr : ∀ d ∈ rest, isSlugChar d = true ∨ d = '-' :=
      fun d hd => hmem d (List.mem_cons_of_mem _ hd)
    have ih := collapseRun_fixed rest hddr hmemr
    cases hc : isSlugChar c with
    | true =>
      constructor
      · simp [collapseRun, hc, ih.1]
      · intro _
        simp [collapseRun, hc, ih.1]
    | false =>
      have hcd : c = '-' := by
        rcases hmem c (List.mem_cons_self c rest) with h | h
        · rw [hc] at h; exact absurd h (by simp)
        · exact h
      have hrest : rest.head? ≠ some '-' := by
        intro hh
        rcases rest with _ | ⟨d, rest'⟩
        · simp at hh
        · have := (List.chain'_cons'.1 hdd).1 d rfl
          simp only [List.head?_cons, Option.some.injEq] at hh
          exact this ⟨hcd, hh⟩
      constructor
      · simp [collapseRun, hc]
        rw [ih.2 hrest, hcd]
        exact ⟨rfl, rfl⟩
      · intro hhead
        exact absurd (by simp [hcd]) hhead

theorem dropWhile_eq_self_of_forall {α : Type} {p : α → Bool} {l : List α}
    (h : ∀ c ∈ l, p c = false) : l.dropWhile p = l := by
  cases l with
  | nil => rfl
  | cons x xs =>
    rw [List.dropWhile_cons, h x (List.mem_cons_self x xs)]
    simp

theorem rdropWhile_eq_self_of_forall {α : Type} {p : α → Bool} {l : List α}
    (h : ∀ c ∈ l, p c = false) : l.rdropWhile p = l := by
  rw [List.rdropWhile]
  rw [dropWhile_eq_self_of_forall (fun c hc => h c (List.mem_reverse.1 hc))]
  exact List.reverse_reverse l

theorem mem_stripDashes {l : List Char} {c : Char} (h : c ∈ stripDashes l) : c ∈ l := by
  unfold stripDashes at h
  have h1 : c ∈ (l.dropWhile (· = '-')) :=
    (List.rdropWhile_prefix _ _).sublist.mem h
  exact (List.dropWhile_sublist _).mem h1

theorem noDoubleDash_stripDashes {l : List Char} (h : noDoubleDash l) :
    noDoubleDash (stripDashes l) := by
  unfold stripDashes
  have h1 : noDoubleDash (l.dropWhile (· = '-')) := by
    unfold noDoubleDash at h ⊢
    exact h.suffix (List.dropWhile_suffix _)
  rcases List.rdropWhile_prefix (fun c : Char => decide (c = '-'))
      (l.dropWhile (· = '-')) with ⟨t, ht⟩
  unfold noDoubleDash at h1 ⊢
  rw [← ht] at h1
  exact (List.chain'_append.1 h1).1

theorem head?_stripDashes_ne {l : List Char} : (stripDashes l).head? ≠ some '-' := by
  intro h
  rcases hr : stripDashes l with _ | ⟨x, xs⟩
  · rw [hr] at h; exact Option.noConfusion h
  · rw [hr] at h
    injection h with h
    have hpre := List.rdropWhile_prefix (fun c : Char => decide (c = '-'))
      (l.dropWhile (· = '-'))
    unfold stripDashes at hr
    rw [hr] at hpre
    rcases hpre with ⟨t, ht⟩
    have h2 := List.head?_dropWhile_not (fun c : Char => decide (c = '-')) l
    rw [← ht] at h2
    simp only [List.cons_append, List.head?_cons] at h2
    rw [h] at h2
    simp at h2

theorem getLast?_stripDashes_ne {l : List Char} : (stripDashes l).getLast? ≠ some '-' := by
  intro h
  have hx : '-' ∈ (stripDashes l).getLast? := by rw [h]; rfl
  rcases List.mem_getLast?_eq_getLast hx with ⟨hne, hlast⟩
  unfold stripDashes at hne hlast
  have h2 := List.rdropWhile_last_not (fun c : Char => decide (c = '-'))
    (l.dropWhile (· = '-')) hne
  rw [← hlast] at h2
  simp at h2

theorem slugChar_toLower_fixed {c : Char} (h : isSlugChar c = true ∨ c = '-') :
    c.toLower = c := by
  have hn : ¬(65 ≤ c.toNat ∧ c.toNat ≤ 90) := by
    rcases h with h | h
    · simp only [isSlugChar, Bool.or_eq_true, Bool.and_eq_true, decide_eq_true_eq] at h
      omega
    · subst h; decide
  simp only [Char.toLower]
  rw [if_neg hn]

theorem slugChar_not_whitespace {c : Char} (h : isSlugChar c = true ∨ c = '-') :
    c.isWhitespace = false := by
  have hn : c.toNat ≠ 32 ∧ c.toNat ≠ 9 ∧ c.toNat ≠ 13 ∧ c.toNat ≠ 10 := by
    rcases h with h | h
    · simp only [isSlugChar, Bool.or_eq_true, Bool.and_eq_true, decide_eq_true_eq] at h
      omega
    · subst h; decide
  simp only [Char.isWhitespace, Bool.or_eq_false_iff, decide_eq_false_iff_not]
  refine ⟨⟨⟨?_, ?_⟩, ?_⟩, ?_⟩ <;> intro hh <;> subst hh
  · exact hn.1 (by decide)
  · exact hn.2.1 (by decide)
  · exact hn.2.2.1 (by decide)
  · exact hn.2.2.2 (by decide)

theorem map_toLower_fixed {l : List Char}
    (h : ∀ c ∈ l, isSlugChar c = true ∨ c = '-') : l.map Char.toLower = l := by
  induction l with
  | nil => rfl
  | cons x xs ih =>
    simp only [List.map_cons]
    rw [slugChar_toLower_fixed (h x (List.mem_cons_self x xs)),
      ih (fun c hc => h c (List.mem_cons_of_mem _ hc))]

theorem mem_normalizeProject {s : String} {c : Char} (h : c ∈ (normalizeProject s).data) :
    isSlugChar c = true ∨ c = '-' := by
  simp only [normalizeProject] at h
  exact mem_collapseRun _ false (mem_stripDashes h)

theorem stripDashes_fixed {l : List Char}
    (hh : l.head? ≠ some '-') (hl : l.getLast? ≠ some '-') : stripDashes l = l := by
  unfold stripDashes
  have h1 : l.dropWhile (· = '-') = l := by
    cases l with
    | nil => rfl
    | cons x xs =>
      simp only [List.head?_cons, ne_eq, Option.some.injEq] at hh
      rw [List.dropWhile_cons]
      simp [hh]
  rw [h1]
  rw [List.rdropWhile_eq_self_iff]
  intro hne
  rw [List.getLast?_eq_getLast l hne] at hl
  simp only [ne_eq, Option.some.injEq] at hl
  simp [hl]

theorem normalizeProject_idem (s : String) :
    normalizeProject (normalizeProject s) = normalizeProject s := by
  have hmem : ∀ c ∈ (normalizeProject s).data, isSlugChar c = true ∨ c = '-' :=
    fun c hc => mem_normalizeProject hc
  have hws : ∀ c ∈ (normalizeProject s).data, c.isWhitespace = false :=
    fun c hc => slugChar_not_whitespace (hmem c hc)
  have hdd : noDoubleDash (normalizeProject s).data := by
    simp only [normalizeProject]
    exact noDoubleDash_stripDashes (noDoubleDash_collapseRun _ false)
  have hhead : (normalizeProject s).data.head? ≠ some '-' := by
    simp only [normalizeProject]; exact head?_stripDashes_ne
  have hlast : (normalizeProject s).data.getLast? ≠ some '-' := by
    simp only [normalizeProject]; exact getLast?_stripDashes_ne
  conv_lhs => rw [normalizeProject]
  have htrim : jsTrimChars (normalizeProject s).data = (normalizeProject s).data := by
    unfold jsTrimChars
    rw [dropWhile_eq_self_of_forall hws]
    exact rdropWhile_eq_self_of_forall hws
  rw [htrim, map_toLower_fixed hmem, (collapseRun_fixed _ hdd hmem).1,
    stripDashes_fixed hhead hlast]

/-- C9: `normalizeProject` (the spec's `normalizeSlug`) is total (it is a
Lean function) and idempotent, and its output contains only characters in
`[a-z0-9-]`, has no leading or trailing `'-'`, and contains no `"--"`
(no two adjacent dashes, stated via `noDoubleDash`). -/
theorem C9_normalizeProject_idempotent_charset (s : String) :
    normalizeProject (normalizeProject s) = normalizeProject s
    ∧ (∀ c ∈ (normalizeProject s).data, isSlugChar c = true ∨ c = '-')
    ∧ (normalizeProject s).data.head? ≠ some '-'
    ∧ (normalizeProject s).data.getLast? ≠ some '-'
    ∧ noDoubleDash (normalizeProject s).data := by
  refine ⟨normalizeProject_idem s, fun c hc => mem_normalizeProject hc, ?_, ?_, ?_⟩
  · simp only [normalizeProject]; exact head?_stripDashes_ne
  · simp only [normalizeProject]; exact getLast?_stripDashes_ne
  · simp only [normalizeProject]
    exact noDoubleDash_stripDashes (noDoubleDash_collapseRun _ false)

/-- Witness for C9 at a concrete input, discharging the membership
hypothesis of the charset conjunct concretely. -/
theorem C9_witness :
    normalizeProject (normalizeProject " Hello,,World! ") = normalizeProject " Hello,,World! "
    ∧ (isSlugChar 'h' = true ∨ 'h' = '-') := by
  refine ⟨(C9_normalizeProject_idempotent_charset " Hello,,World! ").1, ?_⟩
  exact (C9_normalizeProject_idempotent_charset " Hello,,World! ").2.1 'h' (by decide)

end VServer

namespace VServer

/-! ## Theorems: shell quoting (claim C2) -/

theorem evalShellWord_escape : ∀ (cs : List Char),
    evalShellWord QMode.single (shellEscapeChars cs ++ ['\'']) = some cs
  | [] => by simp [shellEscapeChars, evalShellWord]
  | c :: rest => by
    by_cases hc : c = '\''
    · subst hc
      simp only [shellEscapeChars, if_pos rfl, List.cons_append]
      simp [evalShellWord, evalShellWord_escape rest]
    · simp only [shellEscapeChars, if_neg hc, List.cons_append]
      simp [evalShellWord, if_neg hc, evalShellWord_escape rest]

/-- C2: `shellQuote s` is a single shell word that evaluates back to
exactly `s` under POSIX quote removal, for every string `s` (including
the spec's `feature/o'brien` example), and `buildAutoDeployScript`
passes every interpolated value (repo path, branch, origin ref, deploy
command) through `shellQuote`. -/
theorem C2_shellQuote_roundtrip :
    (∀ s : String, evalShellWord QMode.norm (shellQuote s).data = some s.data)
    ∧ evalShellWord QMode.norm (shellQuote "feature/o'brien").data
        = some "feature/o'brien".data
    ∧ (∀ (p : AutoDeployProjectConfig) (branch : String),
        buildAutoDeployScript p branch = String.intercalate "\n" [
          "set -euo pipefail",
          "cd " ++ shellQuote p.repoPath,
          "git fetch origin " ++ shellQuote branch,
          "git checkout " ++ shellQuote branch ++ " || git checkout -b "
            ++ shellQuote branch ++ " " ++ shellQuote ("origin/" ++ branch),
          "git reset --hard " ++ shellQuote ("origin/" ++ branch),
          "if [[ -x ./deploy-with-track.sh ]]; then",
          "  ./deploy-with-track.sh bash -lc " ++ shellQuote p.deployCommand,
          "else",
          "  bash -lc " ++ shellQuote p.deployCommand,
          "fi"]) := by
  have hround : ∀ s : String, evalShellWord QMode.norm (shellQuote s).data = some s.data := by
    intro s
    show evalShellWord QMode.norm ('\'' :: (shellEscapeChars s.data ++ ['\''])) = some s.data
    rw [evalShellWord, if_pos rfl, evalShellWord_escape]
  exact ⟨hround, hround "feature/o'brien", fun p branch => rfl⟩

end VServer

namespace VServer

/-! ## Theorems: limit clamping (claim C5) -/

/-- C5 counterexample: an absent `limit` parameter on `/v1/logs` makes
`toSafeLimit` return its fallback 120 unclamped, so the applied limit is
not in `[1,100]` as claimed. -/
theorem C5_counterexample :
    logsSafeLimit none = 120 ∧ ¬(logsSafeLimit none ≤ 100) := by
  constructor
  · rfl
  · decide

/-- C5 (amended): `toSafeLimit` either returns the caller's fallback
unchanged (when `Number(raw)` is not finite, including absent and
non-numeric limits) or a value clamped into `[1,100]`; in particular any
finite-parsing input is clamped, and `/v1/deployments` (fallback 20)
always applies a limit in `[1,100]`, while `/v1/logs` (fallback 120) does
not. -/
theorem C5_limit_clamped (raw : Option String) (fallback : Int) :
    (toSafeLimit raw fallback = fallback ∨
      (1 ≤ toSafeLimit raw fallback ∧ toSafeLimit raw fallback ≤ 100))
    ∧ ((jsToFiniteNumber raw).isSome = true →
        1 ≤ toSafeLimit raw fallback ∧ toSafeLimit raw fallback ≤ 100)
    ∧ (1 ≤ deploymentsSafeLimit raw ∧ deploymentsSafeLimit raw ≤ 100) := by
  rcases h : jsToFiniteNumber raw with _ | q
  · refine ⟨Or.inl ?_, ?_, ?_⟩
    · simp [toSafeLimit, h]
    · intro hs
      simp [h] at hs
    · unfold deploymentsSafeLimit toSafeLimit
      rw [h]
      exact ⟨by norm_num, by norm_num⟩
  · have hbounds : ∀ fb : Int, 1 ≤ toSafeLimit raw fb ∧ toSafeLimit raw fb ≤ 100 := by
      intro fb
      unfold toSafeLimit
      rw [h]
      constructor
      · exact le_min (le_max_right _ _) (by norm_num)
      · exact min_le_right _ _
    exact ⟨Or.inr (hbounds fallback), fun _ => hbounds fallback, hbounds 20⟩

/-- Witness for C5 at the concrete input `limit = "7"`. -/
theorem C5_witness :
    (jsToFiniteNumber (some "7")).isSome = true
    ∧ 1 ≤ toSafeLimit (some "7") 120 ∧ toSafeLimit (some "7") 120 ≤ 100 :=
  ⟨by decide, (C5_limit_clamped (some "7") 120).2.1 (by decide)⟩

end VServer

namespace VServer

/-! ## Theorems: webhook signature verification (claim C1) -/

theorem sha256_abc_vector :
    String.mk (bytesToHex (sha256 (utf8Encode "abc")))
      = "ba7816bf8f01cfea414140de5dae2223b00361a396177a9cb410ff61f20015ad" := by
  decide

theorem hmac_rfc4231_case2 :
    String.mk (bytesToHex (hmacSha256 (utf8Encode "Jefe")
        (utf8Encode "what do ya want for nothing?")))
      = "5bdcc146bf60754e6a042426089575c75a003f089d2739839dec58b964ec3843" := by
  decide

theorem sha256_byte_lt {msg : List Nat} {b : Nat} (hb : b ∈ sha256 msg) : b < 256 := by
  unfold sha256 at hb
  simp only [List.mem_flatMap] at hb
  obtain ⟨w, _, hbw⟩ := hb
  simp only [List.mem_cons, List.not_mem_nil, or_false] at hbw
  rcases hbw with h | h | h | h <;>
  · subst h
    exact Nat.mod_lt _ (by norm_num)

theorem hmac_byte_lt {key msg : List Nat} {b : Nat} (hb : b ∈ hmacSha256 key msg) :
    b < 256 := by
  unfold hmacSha256 at hb
  exact sha256_byte_lt hb

theorem hexVal_hexDigitChar : ∀ n < 16, hexVal (hexDigitChar n) = n := by decide

theorem hexToBytes_bytesToHex : ∀ {bs : List Nat}, (∀ b ∈ bs, b < 256) →
    hexToBytes (bytesToHex bs) = bs
  | [], _ => rfl
  | b :: rest, h => by
    have hb : b < 256 := h b (List.mem_cons_self _ _)
    have ih := hexToBytes_bytesToHex (fun x hx => h x (List.mem_cons_of_mem _ hx))
    simp only [bytesToHex, List.flatMap_cons, List.cons_append, List.nil_append] at ih ⊢
    rw [hexToBytes]
    rw [hexVal_hexDigitChar _ (by omega), hexVal_hexDigitChar _ (by omega), ih]
    congr 1
    omega

/-- C1 (amended): `verifyGitHubSignature` accepts exactly the headers of
the form `sha256=<64 hex chars>` whose value decodes to the HMAC-SHA256,
keyed by the configured secret, of `JSON.stringify` of the *parsed*
payload — not of the raw request body.  Wrong-length and non-hex
signatures are rejected (the right-hand side forces length 64). -/
theorem C1_verify_signature_iff (h : String) (p : Json) (s : String) :
    verifyGitHubSignature h p s = true ↔
      ("sha256=".data.isPrefixOf (jsTrimChars h.data) = true
       ∧ ((jsTrimChars h.data).drop 7).length = 64
       ∧ (∀ c ∈ (jsTrimChars h.data).drop 7, isHexCharCI c = true)
       ∧ hexToBytes ((jsTrimChars h.data).drop 7)
           = hmacSha256 (utf8Encode s) (utf8Encode (jsonStringify p))) := by
  have hexp : hexToBytes (bytesToHex (hmacSha256 (utf8Encode s)
        (utf8Encode (jsonStringify p))))
      = hmacSha256 (utf8Encode s) (utf8Encode (jsonStringify p)) :=
    hexToBytes_bytesToHex (fun _ hb => hmac_byte_lt hb)
  unfold verifyGitHubSignature
  cases hpre : "sha256=".data.isPrefixOf (jsTrimChars h.data) with
  | false =>
    simp [hpre]
  | true =>
    simp only [hpre, if_true]
    cases hcond : (decide (((jsTrimChars h.data).drop 7).length = 64)
        && ((jsTrimChars h.data).drop 7).all isHexCharCI) with
    | false =>
      simp only [Bool.false_eq_true, if_false, true_and, false_iff]
      rintro ⟨h2, h3, _⟩
      have htrue : (decide (((jsTrimChars h.data).drop 7).length = 64)
          && ((jsTrimChars h.data).drop 7).all isHexCharCI) = true := by
        rw [Bool.and_eq_true]
        exact ⟨by simpa using h2, by rw [List.all_eq_true]; exact fun c hc => h3 c hc⟩
      rw [htrue] at hcond
      exact Bool.noConfusion hcond
    | true =>
      simp only [eq_self_iff_true, if_true, true_and]
      have hca := hcond
      rw [Bool.and_eq_true] at hca
      have hlen : ((jsTrimChars h.data).drop 7).length = 64 := by
        simpa using hca.1
      have hall : ∀ c ∈ (jsTrimChars h.data).drop 7, isHexCharCI c = true := by
        have := hca.2
        rw [List.all_eq_true] at this
        exact fun c hc => this c hc
      rw [hexp]
      constructor
      · intro hv
        refine ⟨hlen, hall, ?_⟩
        by_cases hl : (hexToBytes ((jsTrimChars h.data).drop 7)).length
            = (hmacSha256 (utf8Encode s) (utf8Encode (jsonStringify p))).length
        · rw [if_pos hl] at hv
          exact eq_of_beq hv
        · rw [if_neg hl] at hv
          exact Bool.noConfusion hv
      · rintro ⟨_, _, heq⟩
        rw [heq, if_pos rfl]
        exact beq_self_eq_true _

/-- C1 counterexample: two request bodies differing in exactly one byte
(trailing newline vs trailing space) parse to the same payload, so the
same signature is accepted for both — the claim that any single-byte
mutation of the body is rejected is false.  Moreover the accepted
signature is not the HMAC of the raw body: the code hashes
`JSON.stringify` of the parsed payload. -/
theorem C1_counterexample :
    jsonParse "\x7b\"ref\":\"refs/heads/main\"\x7d\n"
        = some (Json.obj (JsonFields.cons "ref" (Json.str "refs/heads/main") JsonFields.nil))
    ∧ jsonParse "\x7b\"ref\":\"refs/heads/main\"\x7d "
        = some (Json.obj (JsonFields.cons "ref" (Json.str "refs/heads/main") JsonFields.nil))
    ∧ "\x7b\"ref\":\"refs/heads/main\"\x7d\n" ≠ "\x7b\"ref\":\"refs/heads/main\"\x7d "
    ∧ "\x7b\"ref\":\"refs/heads/main\"\x7d\n".length
        = "\x7b\"ref\":\"refs/heads/main\"\x7d ".length
    ∧ ("\x7b\"ref\":\"refs/heads/main\"\x7d\n".data.zip
        "\x7b\"ref\":\"refs/heads/main\"\x7d ".data).countP (fun pr => pr.1 != pr.2) = 1
    ∧ verifyGitHubSignature
        "sha256=5fee968b001a36cb093b82854920a97e7889b7efb0930ab88c6ccd56e63efa49"
        (Json.obj (JsonFields.cons "ref" (Json.str "refs/heads/main") JsonFields.nil))
        "k" = true
    ∧ String.mk (bytesToHex (hmacSha256 (utf8Encode "k")
        (utf8Encode "\x7b\"ref\":\"refs/heads/main\"\x7d\n")))
        ≠ "5fee968b001a36cb093b82854920a97e7889b7efb0930ab88c6ccd56e63efa49" :=
  ⟨rfl, rfl, by decide, by decide, by decide, by decide, by decide⟩

end VServer

namespace VServer

/-! ## Theorems: auto-deploy project matching (claim C6) -/

theorem findAutoDeployProject_eq_find? :
    ∀ (projects : List AutoDeployProjectConfig) (rn rfn br : String),
    findAutoDeployProject projects rn rfn br
      = projects.find? (specProjectMatch rn rfn br)
  | [], _, _, _ => rfl
  | p :: rest, rn, rfn, br => by
    have ih := findAutoDeployProject_eq_find? rest rn rfn br
    unfold findAutoDeployProject at ih
    unfold findAutoDeployProject findAutoDeployProjectGo
    cases hrm : repoMatchesOf (lowerStr (jsTrim rfn))
        (canonicalRepoName (if rn = "" then rfn else rn)) p with
    | true =>
      cases hbm : branchMatchesOf br p with
      | true => simp [specProjectMatch, List.find?_cons, hrm, hbm]
      | false => simp [specProjectMatch, List.find?_cons, hrm, hbm, ih]
    | false => simp [specProjectMatch, List.find?_cons, hrm, ih]

theorem findGo_branch_matches :
    ∀ (projects : List AutoDeployProjectConfig) (fn canon br : String)
      (p : AutoDeployProjectConfig),
    findAutoDeployProjectGo fn canon br projects = some p →
    p.branch = "*" ∨ p.branch = br
  | [], _, _, _, _, h => Option.noConfusion h
  | q :: rest, fn, canon, br, p, h => by
    unfold findAutoDeployProjectGo at h
    cases hrm : repoMatchesOf fn canon q with
    | true =>
      rw [hrm] at h
      simp only [if_true] at h
      cases hbm : branchMatchesOf br q with
      | true =>
        rw [hbm] at h
        simp only [if_true] at h
        injection h with h
        rw [← h]
        have := hbm
        unfold branchMatchesOf at this
        rw [Bool.or_eq_true] at this
        simpa using this
      | false =>
        rw [hbm] at h
        simp only [Bool.false_eq_true, if_false] at h
        exact findGo_branch_matches rest fn canon br p h
    | false =>
      rw [hrm] at h
      simp only [Bool.false_eq_true, if_false] at h
      exact findGo_branch_matches rest fn canon br p h

theorem findAutoDeployProject_branch_matches {projects : List AutoDeployProjectConfig}
    {rn rfn br : String} {p : AutoDeployProjectConfig}
    (h : findAutoDeployProject projects rn rfn br = some p) :
    p.branch = "*" ∨ p.branch = br :=
  findGo_branch_matches projects _ _ br p h

/-- C6: project matching returns the first configured project whose
repository matches (with `/`: the full name case-insensitively; without:
canonical forms) and whose branch is `*` or the pushed branch; no match
makes the webhook answer "ignored" rather than an error; the spec's
concrete push examples behave as stated, and a `*` branch accepts every
branch. -/
theorem C6_project_matching :
    (∀ (projects : List AutoDeployProjectConfig) (rn rfn br : String),
      findAutoDeployProject projects rn rfn br
        = projects.find? (specProjectMatch rn rfn br))
    ∧ (∀ (env : WebhookEnv) (payload : Json),
        env.autoDeployProjects.length ≠ 0 →
        pushBranchOf payload ≠ "" →
        jsTruthy (jsonGetField payload "deleted") = false →
        repoFullNameOf payload ≠ "" →
        findAutoDeployProject env.autoDeployProjects (repoNameOf payload)
          (repoFullNameOf payload) (pushBranchOf payload) = none →
        webhookAfterAuth env "push" payload
          = WebhookOutcome.ignoredNoMatch (repoFullNameOf payload) (pushBranchOf payload))
    ∧ handleGitHubWebhook envAcme (some "t") (some "push") none (some payloadMain)
        = WebhookOutcome.queued pAcme "main" "acme-app:main"
    ∧ handleGitHubWebhook envAcme (some "t") (some "push") none (some payloadDevelop)
        = WebhookOutcome.ignoredNoMatch "org/acme" "develop"
    ∧ (∀ br : String, findAutoDeployProject [pStar] "acme" "org/acme" br = some pStar) := by
  refine ⟨findAutoDeployProject_eq_find?, ?_, by decide, by decide, fun br => rfl⟩
  intro env payload hlen hbrne hdel hfnne hfind
  unfold webhookAfterAuth
  rw [if_neg (by decide), if_neg (by simp), if_neg hlen, if_neg hbrne, hdel]
  simp only [Bool.false_eq_true, if_false]
  rw [if_neg hfnne, hfind]

/-- Witness for C6 at the concrete no-match push (`develop` against a
`main`-only project), discharging every hypothesis concretely. -/
theorem C6_witness :
    webhookAfterAuth envAcme "push" payloadDevelop
      = WebhookOutcome.ignoredNoMatch (repoFullNameOf payloadDevelop)
          (pushBranchOf payloadDevelop) :=
  C6_project_matching.2.1 envAcme payloadDevelop
    (by decide) (by decide) (by decide) (by decide) (by decide)

end VServer

namespace VServer

/-! ## Theorems: auto-deploy queue key (claim C3) and auth config (claim C4) -/

theorem afterAuth_queued {env : WebhookEnv} {e : String} {payload : Json}
    {p : AutoDeployProjectConfig} {branch key : String}
    (h : webhookAfterAuth env e payload = WebhookOutcome.queued p branch key) :
    key = queueKeyOf p ∧ (p.branch = "*" ∨ p.branch = branch) := by
  unfold webhookAfterAuth at h
  repeat' split at h
  all_goals try exact WebhookOutcome.noConfusion h
  rename_i project heq
  injection h with hp hb hk
  subst hp
  constructor
  · rw [← hk]
  · have hm := findAutoDeployProject_branch_matches heq
    rw [← hb]
    exact hm

theorem afterAuth_ne_authMissing (env : WebhookEnv) (e : String) (payload : Json) :
    webhookAfterAuth env e payload ≠ WebhookOutcome.authMissing := by
  intro h
  unfold webhookAfterAuth at h
  repeat' split at h
  all_goals exact WebhookOutcome.noConfusion h

/-- C3 (amended): the serialization key of a queued job is
`{projectSlug}:{configuredBranch}` — the project's configured branch, not
the pushed branch; the two agree exactly when the configured branch is a
literal (matching forces equality), but not for a `*` project. -/
theorem C3_queue_key (env : WebhookEnv) (qt ev sig : Option String) (b : Option Json)
    (p : AutoDeployProjectConfig) (branch key : String)
    (h : handleGitHubWebhook env qt ev sig b = WebhookOutcome.queued p branch key) :
    key = p.projectSlug ++ ":" ++ p.branch
    ∧ (p.branch ≠ "*" → key = p.projectSlug ++ ":" ++ branch) := by
  unfold handleGitHubWebhook at h
  rcases b with _ | payload
  · exact WebhookOutcome.noConfusion h
  · simp only [] at h
    repeat' split at h
    all_goals try exact WebhookOutcome.noConfusion h
    all_goals
      obtain ⟨hk, hb⟩ := afterAuth_queued h
      refine ⟨by rw [hk]; rfl, fun hne => ?_⟩
      rcases hb with hb | hb
      · exact absurd hb hne
      · rw [hk, queueKeyOf, hb]

/-- C3 counterexample: with a wildcard (`*`) project, a push to
`refs/heads/main` is queued under key `acme-app:*`, not
`acme-app:main` — so two pushes to different branches of this project
share one key, contrary to the claim. -/
theorem C3_counterexample :
    handleGitHubWebhook envStar (some "t") (some "push") none (some payloadMain)
      = WebhookOutcome.queued pStar "main" "acme-app:*"
    ∧ "acme-app:*" ≠ "acme-app:main" := by
  constructor
  · decide
  · decide

/-- Witness for C3 at the literal-branch configuration: the key is
`slug:pushedBranch` there. -/
theorem C3_witness :
    "acme-app:main" = pAcme.projectSlug ++ ":" ++ "main" :=
  (C3_queue_key envAcme (some "t") (some "push") none (some payloadMain)
    pAcme "main" "acme-app:main" (by decide)).2 (by decide)

/-- C4 (amended): the webhook endpoint answers the 500 auth-misconfiguration
error exactly when NEITHER auth mode is configured; configuring both modes
is not rejected — the static token mode simply takes precedence. -/
theorem C4_auth_config (env : WebhookEnv) (qt ev sig : Option String) (payload : Json)
    (hobj : isJsObject payload = true) (hen : env.autoDeployEnabled = true) :
    handleGitHubWebhook env qt ev sig (some payload) = WebhookOutcome.authMissing
      ↔ (env.autoDeployWebhookToken = "" ∧ env.githubWebhookSecret = "") := by
  unfold handleGitHubWebhook
  simp only [hobj, hen]
  rw [if_neg (by simp), if_neg (by simp)]
  by_cases hcond : env.autoDeployWebhookToken = "" ∧ env.githubWebhookSecret = ""
  · rw [if_pos hcond]
    exact ⟨fun _ => hcond, fun _ => rfl⟩
  · rw [if_neg hcond]
    constructor
    · intro h
      exfalso
      split at h
      · split at h
        · exact WebhookOutcome.noConfusion h
        · exact afterAuth_ne_authMissing _ _ _ h
      · split at h
        · exact WebhookOutcome.noConfusion h
        · exact afterAuth_ne_authMissing _ _ _ h
    · intro h
      exact absurd h hcond

/-- C4 counterexample: with BOTH auth modes configured ("exactly one"
violated), a correctly authenticated ping succeeds instead of the claimed
500 misconfiguration response. -/
theorem C4_counterexample :
    handleGitHubWebhook envBoth (some "t") (some "ping") none
        (some (Json.obj JsonFields.nil)) = WebhookOutcome.pingOk
    ∧ envBoth.autoDeployWebhookToken ≠ ""
    ∧ envBoth.githubWebhookSecret ≠ ""
    ∧ WebhookOutcome.pingOk ≠ WebhookOutcome.authMissing := by
  refine ⟨by decide, by decide, by decide, by decide⟩

/-- Witness for C4: with neither mode configured the endpoint answers the
500 auth-missing error. -/
theorem C4_witness :
    handleGitHubWebhook ⟨true, "", "", []⟩ none none none
      (some (Json.obj JsonFields.nil)) = WebhookOutcome.authMissing :=
  (C4_auth_config ⟨true, "", "", []⟩ none none none (Json.obj JsonFields.nil)
    (by decide) (by decide)).2 ⟨rfl, rfl⟩

end VServer

namespace VServer

/-! ## Theorems: request-log line parsing totality (claim C8) -/

/-- C8: a line that is not a parseable JSON object line (it does not
start with a brace and end with a brace, or `JSON.parse` fails) and does
not match the combined-log-format regex parses to `none`; the parser is a
total Lean function, so it never throws. -/
theorem C8_unparseable_line_none (D : DateCtx) (line : String)
    (hjson : line.data.head? ≠ some (Char.ofNat 123)
      ∨ line.data.getLast? ≠ some (Char.ofNat 125)
      ∨ jsonParse line = none)
    (hnginx : nginxMatch line.data = none) :
    parseRequestLogLine D line = none := by
  unfold parseRequestLogLine
  have hj : parseJsonRequestLogLine D line = none := by
    unfold parseJsonRequestLogLine
    rcases hjson with h | h | h
    · rw [if_pos (Or.inl h)]
    · rw [if_pos (Or.inr h)]
    · by_cases hg : line.data.head? ≠ some (Char.ofNat 123)
          ∨ line.data.getLast? ≠ some (Char.ofNat 125)
      · rw [if_pos hg]
      · rw [if_neg hg, h]
  have hn : parseNginxRequestLogLine D line = none := by
    unfold parseNginxRequestLogLine
    rw [hnginx]
  rw [hj, hn]
  rfl

/-- Witness for C8 at a concrete garbage line. -/
theorem C8_witness :
    parseRequestLogLine ⟨fun _ => none, fun _ => "", 0⟩ "hello world" = none :=
  C8_unparseable_line_none ⟨fun _ => none, fun _ => "", 0⟩ "hello world"
    (Or.inl (by decide)) (by decide)

end VServer

namespace VServer

/-! ## Theorems: tracker records expose the configured name (claim C10) -/

/-- C10: every `Deployment` returned by `parseTrackerEntries` has
`projectName` equal to the display name passed in; the raw line's
`projectName` only filters. -/
theorem C10_tracker_projectName (D : DateCtx) (lsh raw slug name : String) :
    ∀ d ∈ parseTrackerEntries D lsh raw slug name, d.projectName = name := by
  intro d hd
  unfold parseTrackerEntries at hd
  rw [List.mem_reverse] at hd
  simp only [List.mem_filterMap] at hd
  obtain ⟨line, -, hline⟩ := hd
  unfold trackerLineEntry at hline
  rcases hj : jsonParse (String.mk line) with _ | j
  · rw [hj] at hline
    exact Option.noConfusion hline
  · rw [hj] at hline
    obtain ⟨pn, -, hline⟩ := Option.bind_eq_some.mp hline
    by_cases hcond : normalizeProject pn = "" ∨ normalizeProject pn ≠ slug
    · rw [if_pos hcond] at hline
      exact Option.noConfusion hline
    · rw [if_neg hcond] at hline
      obtain ⟨ta, -, hline⟩ := Option.bind_eq_some.mp hline
      obtain ⟨did, -, hline⟩ := Option.bind_eq_some.mp hline
      obtain ⟨envn, -, hline⟩ := Option.bind_eq_some.mp hline
      obtain ⟨st, -, hline⟩ := Option.bind_eq_some.mp hline
      obtain ⟨du, -, hline⟩ := Option.bind_eq_some.mp hline
      obtain ⟨br, -, hline⟩ := Option.bind_eq_some.mp hline
      obtain ⟨ch, -, hline⟩ := Option.bind_eq_some.mp hline
      obtain ⟨cm, -, hline⟩ := Option.bind_eq_some.mp hline
      obtain ⟨cat, -, hline⟩ := Option.bind_eq_some.mp hline
      obtain ⟨au, -, hline⟩ := Option.bind_eq_some.mp hline
      obtain ⟨sh, -, hline⟩ := Option.bind_eq_some.mp hline
      injection hline with hline
      rw [← hline]

/-- Witness for C10 at a concrete tracker log (one matching line, one
other-project line): the first returned entry is in the list and carries
the configured display name. -/
theorem C10_witness :
    (parseTrackerEntries ⟨fun _ => none, fun _ => "now", 0⟩ "server01"
        "\x7b\"projectName\":\"Acme App\",\"status\":\"Ready\"\x7d\n\x7b\"projectName\":\"Beta App\"\x7d"
        "acme-app" "Acme App").headD
        ⟨"", "", "", "", "", "", "", "", "", none, "", "", ""⟩
      ∈ parseTrackerEntries ⟨fun _ => none, fun _ => "now", 0⟩ "server01"
        "\x7b\"projectName\":\"Acme App\",\"status\":\"Ready\"\x7d\n\x7b\"projectName\":\"Beta App\"\x7d"
        "acme-app" "Acme App"
    ∧ ((parseTrackerEntries ⟨fun _ => none, fun _ => "now", 0⟩ "server01"
        "\x7b\"projectName\":\"Acme App\",\"status\":\"Ready\"\x7d\n\x7b\"projectName\":\"Beta App\"\x7d"
        "acme-app" "Acme App").headD
        ⟨"", "", "", "", "", "", "", "", "", none, "", "", ""⟩).projectName = "Acme App" :=
  ⟨by decide, C10_tracker_projectName ⟨fun _ => none, fun _ => "now", 0⟩ "server01"
    "\x7b\"projectName\":\"Acme App\",\"status\":\"Ready\"\x7d\n\x7b\"projectName\":\"Beta App\"\x7d"
    "acme-app" "Acme App"
    ((parseTrackerEntries ⟨fun _ => none, fun _ => "now", 0⟩ "server01"
        "\x7b\"projectName\":\"Acme App\",\"status\":\"Ready\"\x7d\n\x7b\"projectName\":\"Beta App\"\x7d"
        "acme-app" "Acme App").headD
        ⟨"", "", "", "", "", "", "", "", "", none, "", "", ""⟩)
    (by decide)⟩

end VServer

namespace VServer

/-! ## Theorems: project attribution (claim C7) -/

set_option maxHeartbeats 1600000 in
theorem buildRequestLogEntry_slug_ne {env : AppEnv} {D : DateCtx}
    {nrp : Option String} {s t : Option Int} {idx : Nat} {line : List Char}
    {x : RequestLogEntry}
    (h : buildRequestLogEntry env D nrp s t idx line = some x) :
    x.projectSlug ≠ "" := by
  unfold buildRequestLogEntry at h
  rcases hparse : parseRequestLogLine D (String.mk line) with _ | pl
  · rw [hparse] at h
    exact Option.noConfusion h
  · simp only [hparse] at h
    by_cases h1 : isDashboardUsageRequest env (normalizeHost pl.host) (pathOrSlash pl) = true
    · rw [if_pos h1] at h
      exact Option.noConfusion h
    · rw [if_neg h1] at h
      by_cases h2 : resolveProjectSlugFromRequestLog env pl = ""
      · rw [if_pos h2] at h
        exact Option.noConfusion h
      · rw [if_neg h2] at h
        by_cases h3 : requestedMismatch nrp (resolveProjectSlugFromRequestLog env pl) = true
        · rw [if_pos h3] at h
          exact Option.noConfusion h
        · rw [if_neg h3] at h
          by_cases h4 : startExcluded s (stableEpochOf D pl) = true
          · rw [if_pos h4] at h
            exact Option.noConfusion h
          · rw [if_neg h4] at h
            by_cases h5 : endExcluded t (stableEpochOf D pl) = true
            · rw [if_pos h5] at h
              exact Option.noConfusion h
            · rw [if_neg h5] at h
              injection h with h
              rw [← h]
              exact h2

/-- C7 counterexample: with the two-project configuration, a line whose
host normalizes to `acme.example.com` but which carries the project hint
`beta-app` resolves to `beta-app`, not `acme-app` (the hint has
precedence); and an empty-host line whose path contains `/beta-app/` but
whose message mentions `acme-app` resolves to `acme-app` (projects are
scanned in order), not `beta-app`. -/
theorem C7_counterexample :
    resolveProjectSlugFromRequestLog envC7
      ⟨none, "GET", none, "acme.example.com", "/x", "GET /x", none, some "beta-app"⟩
      = "beta-app"
    ∧ ("beta-app" : String) ≠ "acme-app"
    ∧ resolveProjectSlugFromRequestLog envC7
      ⟨none, "GET", none, "", "/beta-app/x", "see acme-app docs", none, none⟩
      = "acme-app"
    ∧ strIncludes "/beta-app/x" "/beta-app/" = true
    ∧ ("acme-app" : String) ≠ "beta-app" := by
  refine ⟨by decide, by decide, by decide, by decide, by decide⟩

/-- C7 (amended): with projects `acme-app` (domain `acme.example.com`)
and `beta-app` (no domain), and in the absence of a recognized project
hint: a line whose host normalizes to `acme.example.com` resolves to
`acme-app`; an empty-host line whose lowercased path-message text
contains `beta-app` and does not contain `acme-app` (nor its canonical
form) resolves to `beta-app`; a line matching neither hint, host, nor
text resolves to no project, and no returned entry ever carries an empty
project slug. -/
theorem C7_attribution :
    (∀ e : ParsedRequestLogLine, resolveHint envC7 e = none →
      normalizeHost e.host = "acme.example.com" →
      resolveProjectSlugFromRequestLog envC7 e = "acme-app")
    ∧ (∀ e : ParsedRequestLogLine, resolveHint envC7 e = none →
      normalizeHost e.host = "" →
      strIncludes (lowerStr (e.path ++ " " ++ e.message ++ " ")) "acme-app" = false →
      strIncludes (String.mk ((lowerStr (e.path ++ " " ++ e.message ++ " ")).data.filter
        isSlugChar)) "acmeapp" = false →
      strIncludes (lowerStr (e.path ++ " " ++ e.message ++ " ")) "beta-app" = true →
      resolveProjectSlugFromRequestLog envC7 e = "beta-app")
    ∧ (∀ e : ParsedRequestLogLine, resolveHint envC7 e = none →
      resolveByHost envC7 (normalizeHost e.host) = none →
      resolveByText envC7 e (normalizeHost e.host) = none →
      resolveProjectSlugFromRequestLog envC7 e = "")
    ∧ (∀ (D : DateCtx) (raw : String) (rp : Option String) (lim : Nat)
        (s t : Option Int),
      ∀ x ∈ parseRequestLogEntries envC7 D raw rp lim s t, x.projectSlug ≠ "") := by
  refine ⟨?_, ?_, ?_, ?_⟩
  · intro e h1 h2
    simp only [resolveProjectSlugFromRequestLog, h1, h2]
    rw [show resolveByHost envC7 "acme.example.com" = some "acme-app" from by decide]
  · intro e h1 h2 h3 h4 h5
    have hbh : resolveByHost envC7 "" = none := by decide
    have hc : projectSlugCanonicalValue "acme-app" = "acmeapp" := by decide
    simp only [resolveProjectSlugFromRequestLog, h1, h2, hbh]
    simp only [resolveByText, envC7, pAcmeApp, pBetaApp]
    rw [String.append_empty]
    simp [List.find?_cons, h3, h4, h5, hc]
  · intro e h1 h2 h3
    simp only [resolveProjectSlugFromRequestLog, h1, h2, h3]
    decide
  · intro D raw rp lim s t x hx
    unfold parseRequestLogEntries at hx
    have hx2 := List.mem_of_mem_take hx
    rw [List.mem_mergeSort] at hx2
    simp only [List.mem_filterMap] at hx2
    obtain ⟨pr, -, hpr⟩ := hx2
    exact buildRequestLogEntry_slug_ne hpr

/-- Witness for C7 at concrete lines: a host-matched line, a
text-matched line, and an unmatched line. -/
theorem C7_witness :
    resolveProjectSlugFromRequestLog envC7
      ⟨none, "GET", none, "acme.example.com", "/x", "GET /x", none, none⟩ = "acme-app"
    ∧ resolveProjectSlugFromRequestLog envC7
      ⟨none, "GET", none, "", "/beta-app/x", "GET /beta-app/x", none, none⟩ = "beta-app"
    ∧ resolveProjectSlugFromRequestLog envC7
      ⟨none, "GET", none, "nomatch.example.net", "/y", "GET /y", none, none⟩ = "" := by
  refine ⟨?_, ?_, ?_⟩
  · exact C7_attribution.1 ⟨none, "GET", none, "acme.example.com", "/x", "GET /x", none, none⟩
      (by decide) (by decide)
  · exact C7_attribution.2.1 ⟨none, "GET", none, "", "/beta-app/x", "GET /beta-app/x", none,
      none⟩ (by decide) (by decide) (by decide) (by decide) (by decide)
  · exact C7_attribution.2.2.1 ⟨none, "GET", none, "nomatch.example.net", "/y", "GET /y",
      none, none⟩ (by decide) (by decide) (by decide)

end VServer
